import Mathlib

/-!
Verification development for the docstring-to-ahelp converter
(`parsers/docutils.py`).

The Python module converts a docutils document tree into an ahelp XML
document.  This file gives a shallow embedding of the module:

* `DNode` models a docutils node (a text leaf or an element with a tag
  name, attributes and children); `XElem` models an
  `xml.etree.ElementTree.Element`.
* Python exceptions are modelled by the error type `Err` and fallible
  code returns `Except Err _`.
* The module-level mutable state (the `references` set and the
  `store_versions` dictionary) is threaded explicitly as `ConvState`.
* Python string operations are re-implemented structurally over the
  character list of a `String` (`pyLower`, `pyWords`, ...) so that all
  definitions compute by kernel reduction.

Each definition carries the name of the Python function it embeds.
-/

namespace Doc2Ahelp

/-- Python exceptions raised (directly or via `assert`) by the module. -/
inductive Err where
  | assertionError (msg : String)
  | valueError (msg : String)
  | runtimeError (msg : String)
  | notImplementedError (msg : String)
  | typeError (msg : String)
  | attributeError (msg : String)
  | keyError (msg : String)
  | indexError
  | systemExit
deriving Repr, DecidableEq

/-! ## Python string primitives

Python `str` operations used by the module, implemented structurally on
`String.data` so that they reduce in the kernel.  The documents handled
by the converter are ASCII, for which these agree with Python. -/

/-- Python `str.lower` (ASCII). -/
def pyLower (s : String) : String := ⟨s.data.map Char.toLower⟩

/-- Python `str.upper` (ASCII). -/
def pyUpper (s : String) : String := ⟨s.data.map Char.toUpper⟩

/-- Python `str.capitalize` (ASCII): first character upper-cased, the rest
lower-cased. -/
def pyCapitalize (s : String) : String :=
  match s.data with
  | [] => ""
  | c :: cs => ⟨c.toUpper :: cs.map Char.toLower⟩

/-- Python `str.startswith`. -/
def pyStartsWith (s pre : String) : Bool := pre.data.isPrefixOf s.data

/-- Python `str.endswith`. -/
def pyEndsWith (s suf : String) : Bool := suf.data.reverse.isPrefixOf s.data.reverse

/-- Whether `needle` occurs as a contiguous run inside `hay`
(Python `needle in hay` / `hay.find(needle) != -1`). -/
def listSub : List Char → List Char → Bool
  | _, [] => true
  | [], _ :: _ => false
  | c :: cs, needle => needle.isPrefixOf (c :: cs) || listSub cs needle

/-- Python substring test `needle in hay`. -/
def pyContains (hay needle : String) : Bool := listSub hay.data needle.data

/-- Python `str.strip()` (no argument: strip whitespace on both ends). -/
def pyStrip (s : String) : String :=
  ⟨((s.data.dropWhile Char.isWhitespace).reverse.dropWhile Char.isWhitespace).reverse⟩

/-- Splitting on a single separator character, Python `s.split(sep)` with a
one-character separator: every occurrence separates, empty parts kept. -/
def splitOnCharList (sep : Char) : List Char → List (List Char)
  | [] => [[]]
  | c :: cs =>
    let rest := splitOnCharList sep cs
    if c = sep then [] :: rest
    else match rest with
      | [] => [[c]]
      | r :: rs => (c :: r) :: rs

/-- Python `s.split(sep)` for a one-character separator string. -/
def pySplitChar (s : String) (sep : Char) : List String :=
  (splitOnCharList sep s.data).map fun l => ⟨l⟩

/-- Python `s.split()` (no argument): split on runs of whitespace, no empty
parts. -/
def pyWordsList : List Char → List (List Char)
  | [] => []
  | c :: cs =>
    if c.isWhitespace then pyWordsList cs
    else match pyWordsList cs with
      | [] => [[c]]
      | w :: ws =>
        match cs with
        | [] => [[c]]
        | d :: _ => if d.isWhitespace then [c] :: w :: ws else (c :: w) :: ws

/-- Python `s.split()` as strings. -/
def pyWords (s : String) : List String := (pyWordsList s.data).map fun l => ⟨l⟩

/-- Python `s.split(maxsplit=1)`: at most one split, on whitespace runs. -/
def pySplitMax1 (s : String) : List String :=
  let cs := s.data.dropWhile Char.isWhitespace
  match cs with
  | [] => []
  | _ =>
    let tok := cs.takeWhile (fun c => !c.isWhitespace)
    let rest := (cs.dropWhile (fun c => !c.isWhitespace)).dropWhile Char.isWhitespace
    match rest with
    | [] => [⟨tok⟩]
    | _ => [⟨tok⟩, ⟨rest⟩]

/-- Python `s.split(sep, maxsplit=1)` for a one-character separator: at most
one split, at the first occurrence, remainder kept verbatim. -/
def pySplitChar1 (s : String) (sep : Char) : List String :=
  match splitOnCharList sep s.data with
  | [] => []
  | [x] => [⟨x⟩]
  | x :: rest => [⟨x⟩, String.intercalate ⟨[sep]⟩ (rest.map fun l => ⟨l⟩)]

/-- Python `sep.join(xs)`. -/
def pyJoin (sep : String) (xs : List String) : String := String.intercalate sep xs

/-- Lexicographic comparison of strings by code point, Python `s < t`. -/
def pyLtList : List Char → List Char → Bool
  | [], [] => false
  | [], _ :: _ => true
  | _ :: _, [] => false
  | a :: as', b :: bs => if a = b then pyLtList as' bs else decide (a < b)

/-- Python string `<`. -/
def pyLt (s t : String) : Bool := pyLtList s.data t.data

/-- Python string `<=` (used through `sorted`). -/
def pyLe (s t : String) : Bool := s = t || pyLt s t

/-- Python `sorted` on strings (by code point).  Insertion sort: stable and
produces the ascending ordering, like Python `list.sort`. -/
def pySorted (xs : List String) : List String :=
  List.insertionSort (fun a b => pyLe a b = true) xs

/-- Adding to a Python `set`, modelled on a duplicate-free list. -/
def setAdd (x : String) (s : List String) : List String :=
  if x ∈ s then s else x :: s

/-! ## The data model -/

/-- The docutils node attributes read by the module: `name` and `refuri`
(reference nodes), `names` (target nodes, a list defaulting to `[]`),
`xml:space` (doctest and literal blocks) and `cols` (table groups, an
integer in the docutils tree). -/
structure NodeAttrs where
  name : Option String := none
  names : List String := []
  refuri : Option String := none
  xmlSpace : Option String := none
  cols : Option Int := none
deriving Repr, DecidableEq

/-- A docutils node: a `#text` leaf or an element with tag name,
attributes and children. -/
inductive DNode where
  | text (s : String)
  | elem (tag : String) (attrs : NodeAttrs) (children : List DNode)

/-- The `tagname` attribute of a docutils node. -/
def DNode.tagname : DNode → String
  | .text _ => "#text"
  | .elem t _ _ => t

/-- The attributes of a node (`node.get(...)`); a text leaf has none. -/
def DNode.attrs : DNode → NodeAttrs
  | .text _ => {}
  | .elem _ a _ => a

/-- The children of a node (Python `for n in node` / `node[i]`). -/
def DNode.children : DNode → List DNode
  | .text _ => []
  | .elem _ _ cs => cs

/-- The docutils `node.astext()` method: the concatenated text of the
node's leaves.  The module only calls `astext()` on text elements, whose
docutils child separator is the empty string. -/
def DNode.rawtext : DNode → String
  | .text s => s
  | .elem _ _ cs => go cs
where go : List DNode → String
  | [] => ""
  | c :: cs => c.rawtext ++ go cs

/-- An `xml.etree.ElementTree.Element`: tag, attributes (`el.set` /
`el.get`), `text`, `tail` and children.  `text` and `tail` default to
Python `None`, modelled as `none`. -/
inductive XElem where
  | mk (tag : String) (xattrs : List (String × String)) (text : Option String)
       (tail : Option String) (children : List XElem)

/-- The tag of an element. -/
def XElem.tag : XElem → String
  | .mk t _ _ _ _ => t

/-- The attribute list of an element. -/
def XElem.xattrs : XElem → List (String × String)
  | .mk _ a _ _ _ => a

/-- The `text` of an element. -/
def XElem.text : XElem → Option String
  | .mk _ _ x _ _ => x

/-- The `tail` of an element. -/
def XElem.tail : XElem → Option String
  | .mk _ _ _ x _ => x

/-- The children of an element. -/
def XElem.children : XElem → List XElem
  | .mk _ _ _ _ cs => cs

/-- A fresh element, `ElementTree.Element(tag)`. -/
def XElem.new (tag : String) : XElem := .mk tag [] none none []

/-- Element attribute lookup, `el.get(key)` (`None` when absent). -/
def XElem.get (e : XElem) (key : String) : Option String :=
  (e.xattrs.find? fun p => p.fst = key).map Prod.snd

/-- Element attribute update, `el.set(key, value)`: replaces the value of
an existing key, otherwise appends the pair. -/
def XElem.set (e : XElem) (key value : String) : XElem :=
  match e with
  | .mk t a x l cs =>
    if (a.find? fun p => p.fst = key).isSome then
      .mk t (a.map fun p => if p.fst = key then (key, value) else p) x l cs
    else
      .mk t (a ++ [(key, value)]) x l cs

/-- Set the `text` of an element. -/
def XElem.setText (e : XElem) (s : String) : XElem :=
  match e with | .mk t a _ l cs => .mk t a (some s) l cs

/-- Set the `tail` of an element. -/
def XElem.setTail (e : XElem) (s : String) : XElem :=
  match e with | .mk t a x _ cs => .mk t a x (some s) cs

/-- Append a child, `parent.append(child)` / `ElementTree.SubElement`. -/
def XElem.push (e : XElem) (c : XElem) : XElem :=
  match e with | .mk t a x l cs => .mk t a x l (cs ++ [c])

/-- Append several children in order. -/
def XElem.pushAll (e : XElem) (new : List XElem) : XElem :=
  match e with | .mk t a x l cs => .mk t a x l (cs ++ new)

/-! ## Module constants and version helper -/

/-- The `CIAOVER` constant. -/
def CIAOVER : String := "CIAO 4.18"

/-- The `XSPECVER` constant. -/
def XSPECVER : String := "12.14.0k"

/-- The `LASTMOD` constant. -/
def LASTMOD : String := "December 2025"

/-- `convert_version_number`: convert from Sherpa to CIAO numbering.
Asserts three dot-separated tokens with first token 4; drops a trailing
`.0`; otherwise applies the release-shift table. -/
def convert_version_number (v : String) : Except Err String :=
  match pySplitChar v '.' with
  | [t0, t1, t2] =>
    if t0 ≠ "4" then .error (.assertionError v)
    else if t2 = "0" then .ok (t0 ++ "." ++ t1)
    else if pyStartsWith v "4.17." then .ok "4.18"
    else if pyStartsWith v "4.16." then .ok "4.17"
    else if pyStartsWith v "4.15." then .ok "4.16"
    else if pyStartsWith v "4.14." then .ok "4.15"
    else if pyStartsWith v "4.13." then .ok "4.14"
    else if v = "4.12.2" then .ok "4.13"
    else if v = "4.10.1" then .ok "4.11"
    else .ok v
  | _ => .error (.assertionError v)

/-- `splitWhile`: the longest witness-satisfying head and the rest. -/
def splitWhile (pred : DNode → Bool) (xs : List DNode) : List DNode × List DNode :=
  (xs.takeWhile pred, xs.dropWhile pred)

/-- `is_para`: is this a paragraph node? -/
def is_para (node : DNode) : Bool := node.tagname = "paragraph"

/-- The regular expression `XSMODEL_RE` (`^XS[a-z0-9]+$`), applied with
`re.match` (here the pattern is anchored on both sides, so it is a full
match). -/
def xsmodelMatch (s : String) : Bool :=
  pyStartsWith s "XS" &&
    (let rest := s.data.drop 2
     !rest.isEmpty && rest.all fun c => ('a' ≤ c && c ≤ 'z') || ('0' ≤ c && c ≤ '9'))

/-- The regular expression `XSVERSION_WARNING`
(`^This model requires XSPEC 12\.\d\d\.\d or later.$`) applied with
`re.match`.  The unescaped final dot matches any character except a
newline; `$` also matches just before one final newline. -/
def xsversionMatch (s : String) : Bool :=
  pyStartsWith s "This model requires XSPEC 12." &&
    (match s.data.drop 29 with
     | [a, b, '.', c, ' ', 'o', 'r', ' ', 'l', 'a', 't', 'e', 'r', d] =>
       a.isDigit && b.isDigit && c.isDigit && d ≠ '\n'
     | [a, b, '.', c, ' ', 'o', 'r', ' ', 'l', 'a', 't', 'e', 'r', d, '\n'] =>
       a.isDigit && b.isDigit && c.isDigit && d ≠ '\n'
     | _ => false)

/-! ## The reference registry

The module keeps a module-level set `references` of lower-cased reference
names; there is no code that ever clears it. -/

/-- `process_reference`: extract the text and link from a reference node,
recording its lower-cased `name` (when present) in the registry. -/
def process_reference (node : DNode) (references : List String) :
    Except Err ((String × Option String) × List String) :=
  if node.tagname ≠ "reference" then
    .error (.assertionError "reference tagname")
  else
    let references :=
      match node.attrs.name with
      | some name => setAdd (pyLower name) references
      | none => references
    .ok ((node.rawtext, node.attrs.refuri), references)

/-- `process_target`: check that the single name of a target node was
already recorded (case-insensitively) in the registry. -/
def process_target (references : List String) (node : DNode) : Except Err Unit :=
  if node.tagname ≠ "target" then
    .error (.assertionError "target tagname")
  else if node.attrs.names.length ≠ 1 then
    .error (.assertionError "len(names) == 1")
  else if pyLower node.attrs.names.headI ∉ references then
    .error (.valueError ("Found un-referenced target block " ++ node.attrs.names.headI))
  else
    .ok ()

/-- Shows a Python value that may be `None` inside an f-string
(`None` prints as the string `None`). -/
def optStr : Option String → String
  | some s => s
  | none => "None"

/-- `astext` (the module's own recursive renderer, not the docutils
method): extract the text contents of a node, with special handling for
the tags the module supports.  Reads the reference registry (for target
checking) but never changes it. -/
def astext (refs : List String) : DNode → Except Err String
  | .text s => .ok s
  | .elem tag attrs children =>
    let node : DNode := .elem tag attrs children
    if tag = "system_message" then .ok ""
    else if tag = "reference" then .ok node.rawtext
    else if tag = "footnote" then
      match children with
      | [] => .error .indexError
      | l0 :: rest =>
        if l0.tagname ≠ "label" then .error (.assertionError "footnote label")
        else
          let ctr := "[" ++ l0.rawtext ++ "]"
          match rest with
          | [] => .error .indexError
          | n1 :: _ =>
            if n1.tagname = "paragraph" then do
              let cts ← astext refs n1
              pure (ctr ++ " " ++ cts)
            else if n1.tagname = "enumerated_list" then do
              let cts ← astext refs n1
              pure (ctr ++ " " ++ cts)
            else .error (.valueError ("Unexpected node " ++ n1.tagname ++ " in footnote"))
    else if tag = "footnote_reference" then .ok ("[" ++ node.rawtext ++ "]")
    else if tag = "title_reference" then
      let out := node.rawtext
      if out ∈ ["sherpa.sim", "sherpa.utils", "sherpa.astro.datastack",
                "sherpa.ui", "sherpa.astro.ui", "sherpa.utils.logging"] then
        .ok ("`" ++ out ++ "`")
      else if pyStartsWith out "sherpa." || pyStartsWith out "~" then
        let toks := pySplitChar out '.'
        if toks.length ≤ 1 then .error (.assertionError "Unexpected reference")
        else
          let ltok := toks.getLastD ""
          if ltok ∈ ["JDPileup", "PSFModel"] then .ok ("`" ++ pyLower ltok ++ "`")
          else .ok ("`" ++ ltok ++ "`")
      else if pyStartsWith out "sherpa" then
        .error (.assertionError ("reference " ++ out))
      else .ok ("`" ++ out ++ "`")
    else if tag = "literal" then
      let out := node.rawtext
      if out ∈ ["True", "False", "StringIO"] then .ok out
      else if pyStartsWith out "XS" && !xsmodelMatch out then
        .error (.assertionError ("literal: " ++ out))
      else
        -- the source's `assert out` on a `sherpa.`-prefixed string cannot
        -- fail (a prefixed string is non-empty, hence truthy)
        if xsmodelMatch out then .ok (pyLower out) else .ok (pyLower out)
    else if tag = "emphasis" then .ok node.rawtext
    else if tag = "strong" then .ok node.rawtext
    else if tag = "target" then do
      process_target refs node
      pure ""
    else if tag = "citation_reference" then .ok ("[" ++ node.rawtext ++ "]")
    else if tag = "paragraph" || tag = "list_item" || tag = "enumerated_list" then do
      let parts ← goList refs children
      pure (pyJoin " " parts)
    else .error (.assertionError ("astext tagname " ++ tag))
where goList (refs : List String) : List DNode → Except Err (List String)
  | [] => .ok []
  | c :: cs => do
    let t ← astext refs c
    let ts ← goList refs cs
    pure (t :: ts)

/-- `make_syntax_block`: a SYNTAX element holding one LINE per input line
(the line list must not be empty). -/
def make_syntax_block (lines : List String) : Except Err XElem :=
  if lines.isEmpty then .error (.assertionError "len(lines) > 0")
  else .ok ((XElem.new "SYNTAX").pushAll (lines.map fun l => (XElem.new "LINE").setText l))

/-- `make_href`: build an HREF element from a reference node, recording
the reference. -/
def make_href (node : DNode) (refs : List String) : Except Err (XElem × List String) := do
  let ((txt, uri), refs) ← process_reference node refs
  let href := (XElem.new "HREF").setText txt
  let href := match uri with
    | some u => href.set "link" u
    | none => href    -- ElementTree would store None, which nothing reads back
  pure (href, refs)

/-- `make_href_text`: the plain-text rendering of a reference node. -/
def make_href_text (node : DNode) (refs : List String) :
    Except Err (String × List String) := do
  let ((txt, uri), refs) ← process_reference node refs
  pure (txt ++ " [" ++ optStr uri ++ "]", refs)

/-- Loop body of `convert_para`: walk the paragraph's children keeping the
accumulated text run, the PARA text set at the first reference, the
finished HREF children and the currently open HREF (the last child,
whose tail is still to be set). -/
def convert_para_aux (complex : Bool) (ns : List DNode) (text : List String)
    (outText : Option String) (done : List XElem) (cur : Option XElem)
    (refs : List String) : Except Err (Option String × List XElem × List String) :=
  match ns with
  | [] =>
    match cur with
    | none => .ok (some (pyJoin "\n" text), done, refs)
    | some h => .ok (outText, done ++ [h.setTail (pyJoin "\n" text)], refs)
  | n :: rest =>
    if n.tagname = "target" then do
      process_target refs n
      convert_para_aux complex rest text outText done cur refs
    else if n.tagname = "reference" then
      if !complex then do
        let (_, refs) ← process_reference n refs
        let (t, refs) ← make_href_text n refs
        convert_para_aux complex rest (text ++ [t]) outText done cur refs
      else
        -- flush the accumulated run, then open a new HREF
        match cur with
        | none => do
          let (href, refs) ← make_href n refs
          convert_para_aux complex rest [] (some (pyJoin "\n" text)) done (some href) refs
        | some h => do
          let (href, refs) ← make_href n refs
          convert_para_aux complex rest [] outText
            (done ++ [h.setTail (pyJoin "\n" text)]) (some href) refs
    else do
      let t ← astext refs n
      convert_para_aux complex rest (text ++ [t]) outText done cur refs

/-- `convert_para`: convert a paragraph node to a PARA element.  With
`complex` set, embedded references become HREF children whose tails hold
the following text runs; otherwise references are flattened into the
text. -/
def convert_para (para : DNode) (refs : List String) (complex : Bool := true) :
    Except Err (XElem × List String) := do
  let (outText, children, refs) ← convert_para_aux complex para.children [] none [] none refs
  pure (XElem.mk "PARA" [] outText none children, refs)

/-- `convert_doctest_block`: a VERBATIM element with the block's exact
text (`xml:space` must be `preserve`). -/
def convert_doctest_block (para : DNode) : Except Err XElem :=
  if para.tagname ≠ "doctest_block" then .error (.assertionError "doctest_block")
  else if para.attrs.xmlSpace ≠ some "preserve" then .error (.assertionError "xml:space")
  else .ok ((XElem.new "VERBATIM").setText para.rawtext)

/-- `convert_literal_block`: a VERBATIM element with the block's exact
text (`xml:space` must be `preserve`). -/
def convert_literal_block (para : DNode) : Except Err XElem :=
  if para.tagname ≠ "literal_block" then .error (.assertionError "literal_block")
  else if para.attrs.xmlSpace ≠ some "preserve" then .error (.assertionError "xml:space")
  else .ok ((XElem.new "VERBATIM").setText para.rawtext)

/-- Item loop of `convert_list_items`: each child must be a `list_item`
and becomes an ITEM whose text is its flattened rendering. -/
def convert_list_items_aux (refs : List String) : List DNode → Except Err (List XElem)
  | [] => .ok []
  | el :: els =>
    if el.tagname ≠ "list_item" then .error (.assertionError "list_item")
    else do
      let t ← astext refs el
      let rest ← convert_list_items_aux refs els
      pure ((XElem.new "ITEM").setText t :: rest)

/-- `convert_list_items`: convert `list_item` children to a LIST. -/
def convert_list_items (para : DNode) (refs : List String) : Except Err XElem := do
  let items ← convert_list_items_aux refs para.children
  pure ((XElem.new "LIST").pushAll items)

/-- `convert_block_quote`: a block quote is polymorphic — a single nested
list unwraps to a LIST, a run of doctest blocks merges into one VERBATIM
joined by blank lines, a single paragraph becomes a VERBATIM of its
rendered text, and anything else is fatal. -/
def convert_block_quote (para : DNode) (refs : List String) : Except Err XElem :=
  if para.tagname ≠ "block_quote" then .error (.assertionError "block_quote")
  else
    match para.children with
    | [] => .error .indexError
    | p0 :: rest =>
      if p0.tagname = "bullet_list" || p0.tagname = "enumerated_list" then
        if !rest.isEmpty then .error (.assertionError "len(para) == 1")
        else convert_list_items p0 refs
      else if (p0 :: rest).all (fun p => p.tagname = "doctest_block") then
        .ok ((XElem.new "VERBATIM").setText
          (pyJoin "\n\n" ((p0 :: rest).map DNode.rawtext)))
      else if p0.tagname = "paragraph" then
        if !rest.isEmpty then .error (.assertionError "len(para) == 1")
        else do
          let t ← astext refs p0
          pure ((XElem.new "VERBATIM").setText t)
      else .error (.valueError "Unexpected block_quote element")

/-- `convert_enumerated_list`: an enumerated list becomes a LIST. -/
def convert_enumerated_list (para : DNode) (refs : List String) : Except Err XElem :=
  if para.tagname ≠ "enumerated_list" then .error (.assertionError "enumerated_list")
  else convert_list_items para refs

/-- `convert_bullet_list`: a bullet list becomes a LIST. -/
def convert_bullet_list (para : DNode) (refs : List String) : Except Err XElem :=
  if para.tagname ≠ "bullet_list" then .error (.assertionError "bullet_list")
  else convert_list_items para refs

/-- Row loop of `convert_definition_list_as_table`: each
`definition_list_item` must hold a simple term and a single-paragraph
definition and becomes one ROW of two DATA cells. -/
def convert_definition_list_rows (refs : List String) : List DNode → Except Err (List XElem)
  | [] => .ok []
  | el :: els =>
    if el.tagname ≠ "definition_list_item" then
      .error (.assertionError "definition_list_item")
    else
      match el.children with
      | [] => .error .indexError
      | term :: after =>
        if term.tagname ≠ "term" then .error (.assertionError "term")
        else
          match term.children with
          | [] => .error .indexError
          | t0 :: _ =>
            if t0.tagname ≠ "literal" && t0.tagname ≠ "#text" then
              .error (.assertionError "term contents")
            else
              match after with
              | [] => .error .indexError
              | defn :: _ =>
                if defn.tagname ≠ "definition" then .error (.assertionError "definition")
                else
                  match defn.children with
                  | [] => .error .indexError
                  | d0 :: drest =>
                    if d0.tagname ≠ "paragraph" then .error (.assertionError "paragraph")
                    else if !drest.isEmpty then .error (.assertionError "len(el[1]) == 1")
                    else do
                      let t ← astext refs d0
                      let row := ((XElem.new "ROW").push
                          ((XElem.new "DATA").setText term.rawtext)).push
                          ((XElem.new "DATA").setText t)
                      let rest ← convert_definition_list_rows refs els
                      pure (row :: rest)

/-- `convert_definition_list_as_table`: a definition list becomes a TABLE
with a synthetic header row Item / Definition. -/
def convert_definition_list_as_table (para : DNode) (refs : List String) :
    Except Err (List XElem) :=
  if para.tagname ≠ "definition_list" then .error (.assertionError "definition_list")
  else do
    let row0 := ((XElem.new "ROW").push ((XElem.new "DATA").setText "Item")).push
        ((XElem.new "DATA").setText "Definition")
    let rows ← convert_definition_list_rows refs para.children
    pure [((XElem.new "TABLE").push row0).pushAll rows]

/-- `convert_definition_list`: currently rendered as a table. -/
def convert_definition_list (para : DNode) (refs : List String) :
    Except Err (List XElem) :=
  convert_definition_list_as_table para refs

/-- `convert_definition`: the default paragraph handling of a definition
node. -/
def convert_definition (para : DNode) (refs : List String) : Except Err XElem :=
  if para.tagname ≠ "definition" then .error (.assertionError "definition")
  else do
    let parts ← astext.goList refs para.children
    pure ((XElem.new "PARA").setText (pyJoin "\n" parts))

/-- Entry loop of `add_table_row`: each `entry` holds at most one
paragraph and becomes a DATA cell. -/
def add_table_entries : List DNode → Except Err (List XElem)
  | [] => .ok []
  | entry :: entries =>
    if entry.tagname ≠ "entry" then .error (.assertionError "entry")
    else do
      let txt ←
        match entry.children with
        | [] => pure ""
        | [p] =>
          if p.tagname ≠ "paragraph" then throw (.assertionError "paragraph")
          else pure entry.rawtext
        | _ => throw (.assertionError "len(entry) == 1")
      let rest ← add_table_entries entries
      pure ((XElem.new "DATA").setText txt :: rest)

/-- Row loop of `add_table_row`. -/
def add_table_rows : List DNode → Except Err (List XElem)
  | [] => .ok []
  | row :: rows =>
    if row.tagname ≠ "row" then .error (.assertionError "row")
    else do
      let cells ← add_table_entries row.children
      let rest ← add_table_rows rows
      pure ((XElem.new "ROW").pushAll cells :: rest)

/-- `add_table_row`: append the rows of a `thead` or `tbody` group to a
TABLE element. -/
def add_table_row (out : XElem) (el : DNode) : Except Err XElem :=
  if el.tagname ≠ "thead" && el.tagname ≠ "tbody" then
    .error (.assertionError "thead or tbody")
  else do
    let rows ← add_table_rows el.children
    pure (out.pushAll rows)

/-- Group loop of `convert_table`: `colspec` children are skipped, `thead`
and `tbody` contribute rows, anything else is fatal. -/
def convert_table_groups (out : XElem) : List DNode → Except Err XElem
  | [] => .ok out
  | el :: els =>
    if el.tagname = "colspec" then convert_table_groups out els
    else if el.tagname = "thead" || el.tagname = "tbody" then do
      let out ← add_table_row out el
      convert_table_groups out els
    else .error (.valueError ("Unexpected tag: " ++ el.tagname))

/-- `convert_table`: a docutils table (one `tgroup`, at least one column)
becomes a TABLE of ROWs. -/
def convert_table (tbl : DNode) : Except Err XElem :=
  if tbl.tagname ≠ "table" then .error (.assertionError "table")
  else
    match tbl.children with
    | [tgroup] =>
      if tgroup.tagname ≠ "tgroup" then .error (.assertionError "tgroup")
      else
        match tgroup.attrs.cols with
        | none => .error (.typeError "int() of None")
        | some ncols =>
          if ncols < 1 then .error (.assertionError "ncols >= 1")
          else convert_table_groups (XElem.new "TABLE") tgroup.children
    | _ => .error (.assertionError "len(tbl) == 1")

/-- `convert_note`: a note becomes a titled PARA — a single paragraph gets
the title Note, a two-paragraph note uses its first paragraph as title;
one obsolete XSPEC caveat title is suppressed entirely. -/
def convert_note (note : DNode) (refs : List String) :
    Except Err (Option XElem × List String) :=
  if note.tagname ≠ "note" then .error (.assertionError "note")
  else if !(note.children.all is_para) then .error (.assertionError "all paragraph")
  else if note.children.length ≥ 3 then .error (.assertionError "len(note) < 3")
  else do
    let (title, out, refs) ←
      match note.children with
      | [p] => do
        let (out, refs) ← convert_para p refs
        pure ("Note", out, refs)
      | p0 :: p1 :: _ => do
        let title ← astext refs p0
        let (out, refs) ← convert_para p1 refs
        pure (title, out, refs)
      | [] => throw Err.indexError
    let out := out.set "title" title
    if title = "Parameter renames in XSPEC 12.11.1" then
      pure (none, refs)
    else
      pure (some out, refs)

/-- `convert_warning`: only the single-paragraph warning is supported and
becomes a PARA titled Warning. -/
def convert_warning (note : DNode) (refs : List String) :
    Except Err (XElem × List String) :=
  if note.tagname ≠ "warning" then .error (.assertionError "warning")
  else if !(note.children.all is_para) then .error (.assertionError "all paragraph")
  else if note.children.length ≥ 3 then .error (.assertionError "len(note) < 3")
  else
    match note.children with
    | [p] => do
      let (out, refs) ← convert_para p refs
      pure (out.set "title" "Warning", refs)
    | _ => .error (.notImplementedError "need to handle")

/-! ## The version-history store

`store_versions` is a module-level variable, `None` until
`reset_stored_versions` first runs; the dictionary holds the lists
`versionadded` and `versionchanged`, the `titles` set, and — after the
flush — a `DONE` marker key. -/

/-- The `store_versions` dictionary after a reset. -/
structure VersionStore where
  versionadded : List XElem := []
  versionchanged : List XElem := []
  titles : List String := []
  done : Bool := false

/-- `reset_stored_versions`: a fresh store. -/
def reset_stored_versions : VersionStore := {}

/-- Append an element to the list stored under the block's tag name. -/
def VersionStore.append (sv : VersionStore) (tagname : String) (el : XElem) :
    VersionStore :=
  if tagname = "versionadded" then { sv with versionadded := sv.versionadded ++ [el] }
  else { sv with versionchanged := sv.versionchanged ++ [el] }

/-- Trailing-paragraph loop of `convert_versionwarning`: every further
block must be a paragraph and becomes an untitled PARA. -/
def convert_versionwarning_rest (refs : List String) : List DNode → Except Err (List XElem)
  | [] => .ok []
  | blk :: blks =>
    if !is_para blk then .error (.runtimeError "not a paragraph")
    else do
      let t ← astext refs blk
      let rest ← convert_versionwarning_rest refs blks
      pure ((XElem.new "PARA").setText t :: rest)

/-- The Added/Changed label of a version block by its tag name. -/
def versionwarning_label (tagname : String) : Except Err String :=
  if tagname = "versionadded" then .ok "Added"
  else if tagname = "versionchanged" then .ok "Changed"
  else .error (.assertionError "versionadded or versionchanged")

/-- The head entry of a recorded version block: a PARA titled by the
release unless that title was already seen. -/
def versionwarning_head (title : String) (titles : List String) :
    XElem × List String :=
  if title ∈ titles then (XElem.new "PARA", titles)
  else ((XElem.new "PARA").set "title" title, setAdd title titles)

/-- The body text of the head entry: suppressed when it merely restates
the minimum XSPEC version. -/
def versionwarning_settext (out : XElem) (trest : List String) : XElem :=
  match trest with
  | t1 :: _ => if !xsversionMatch t1 then out.setText t1 else out
  | [] => out

/-- `convert_versionwarning`: record a `versionadded` or `versionchanged`
block in the store instead of emitting output.  The first word of the
first paragraph is the release (translated to CIAO numbering); a title
already seen is blanked; a body that merely restates the minimum XSPEC
version is suppressed. -/
def convert_versionwarning (block : DNode) (store : Option VersionStore)
    (refs : List String) : Except Err VersionStore :=
  match store with
  | none => .error (.typeError "store_versions is None")
  | some sv =>
    if sv.done then .error (.valueError "Unexpected block")
    else do
      let lbl ← versionwarning_label block.tagname
      if !(block.children.all is_para) then throw (.assertionError "all paragraph")
      else
        match block.children with
        | [] => throw Err.indexError
        | b0 :: brest => do
          let b0txt ← astext refs b0
          match pySplitMax1 b0txt with
          | [] => throw Err.indexError
          | t0 :: trest => do
            let version ← convert_version_number t0
            let title := lbl ++ " in CIAO " ++ version
            let ht := versionwarning_head title sv.titles
            let out := versionwarning_settext ht.1 trest
            let sv := { sv with titles := ht.2 }
            let sv := sv.append block.tagname out
            let extra ← convert_versionwarning_rest refs brest
            pure (extra.foldl (fun s e => s.append block.tagname e) sv)

/-- The optional body of a hand-parsed comment version block: whatever
follows the first newline. -/
def comment_versionwarning_settext (out : XElem) (trest : List String) : XElem :=
  match trest with
  | t1 :: _ => out.setText t1
  | [] => out

/-- `convert_comment_versionwarning`: a version directive that lost its
second colon parses as a comment; re-parse it by hand into the store. -/
def convert_comment_versionwarning (block : DNode) (store : Option VersionStore)
    (refs : List String) : Except Err VersionStore :=
  match store with
  | none => .error (.typeError "store_versions is None")
  | some sv =>
    if sv.done then .error (.valueError "Unexpected block")
    else
      match block.children with
      | [b0] => do
        let astxt ← astext refs b0
        let idx := (astxt.data.takeWhile (fun c => c ≠ ':')).length
        if idx = astxt.data.length then throw (.assertionError "idx > 0")
        else if idx = 0 then throw (.assertionError "idx > 0")
        else
          let tagname : String := ⟨astxt.data.take idx⟩
          let lbl ← versionwarning_label tagname
          let astxt : String := ⟨astxt.data.drop (idx + 1)⟩
          let toks := pySplitChar1 astxt '\n'
          match toks with
          | [] => throw Err.indexError
          | t0 :: trest => do
            let version ← convert_version_number (pyStrip t0)
            let title := lbl ++ " in CIAO " ++ version
            let out := (XElem.new "PARA").set "title" title
            let out := comment_versionwarning_settext out trest
            pure (sv.append tagname out)
      | _ => .error (.assertionError "len(block) == 1")

/-- `convert_field_body`: a field body of at most one paragraph becomes a
PARA (non-hyperlink variant). -/
def convert_field_body (fbody : DNode) (refs : List String) :
    Except Err (XElem × List String) :=
  if fbody.tagname ≠ "field_body" then .error (.assertionError "field_body")
  else if !(fbody.children.all fun n => n.tagname = "paragraph") then
    .error (.valueError "Expected only paragraph")
  else
    match fbody.children with
    | [] => .ok (XElem.new "PARA", refs)
    | [p] => convert_para p refs false
    | _ => .error (.valueError "Need to handle blocks")

/-- The combined mutable module state: the reference registry and the
version store. -/
structure ConvState where
  references : List String := []
  store_versions : Option VersionStore := none

/-- Second half of the `para_converters` dispatch (split from
`make_para_blocks` only to keep each Lean definition a manageable size;
together they embed the one dispatch table). -/
def make_para_blocks_tail (para : DNode) (st : ConvState) :
    Except Err (List XElem × ConvState) :=
  if para.tagname = "table" then do
    let out ← convert_table para
    pure ([out], st)
  else if para.tagname = "note" then do
    let (out, refs) ← convert_note para st.references
    match out with
    | none => pure ([], { st with references := refs })
    | some el => pure ([el], { st with references := refs })
  else if para.tagname = "warning" then do
    let (out, refs) ← convert_warning para st.references
    pure ([out], { st with references := refs })
  else if para.tagname = "versionadded" || para.tagname = "versionchanged" then do
    let sv ← convert_versionwarning para st.store_versions st.references
    pure ([], { st with store_versions := some sv })
  else if para.tagname = "comment" then do
    let sv ← convert_comment_versionwarning para st.store_versions st.references
    pure ([], { st with store_versions := some sv })
  else if para.tagname = "field_body" then do
    let (out, refs) ← convert_field_body para st.references
    pure ([out], { st with references := refs })
  else if para.tagname = "literal_block" then do
    let out ← convert_literal_block para
    pure ([out], st)
  else .error (.valueError ("Unsupported paragraph type: " ++ para.tagname))

/-- `make_para_blocks`: dispatch one block node through the
`para_converters` table, producing zero or more elements.  Paragraphs go
through `convert_para`; system messages are dropped; an unknown tag is
fatal. -/
def make_para_blocks (para : DNode) (st : ConvState) :
    Except Err (List XElem × ConvState) :=
  if para.tagname = "system_message" then .ok ([], st)
  else if is_para para then do
    let (out, refs) ← convert_para para st.references
    pure ([out], { st with references := refs })
  else if para.tagname = "doctest_block" then do
    let out ← convert_doctest_block para
    pure ([out], st)
  else if para.tagname = "block_quote" then do
    let out ← convert_block_quote para st.references
    pure ([out], st)
  else if para.tagname = "enumerated_list" then do
    let out ← convert_enumerated_list para st.references
    pure ([out], st)
  else if para.tagname = "definition_list" then do
    let out ← convert_definition_list para st.references
    pure (out, st)
  else if para.tagname = "definition" then do
    let out ← convert_definition para st.references
    pure ([out], st)
  else if para.tagname = "bullet_list" then do
    let out ← convert_bullet_list para st.references
    pure ([out], st)
  else make_para_blocks_tail para st

/-! ## The document segmenter -/

/-- `find_syntax`: use a leading `name(...)` paragraph as the syntax block
(which never happens in practice and is fatal), otherwise fall back to
the signature line.  `cleanupSig` abstracts the regex helper
`cleanup_sig`, a pure string clean-up of the signature. -/
def find_syntax (cleanupSig : String → String) (name : String) (sig : Option String)
    (indoc : List DNode) : Except Err (Option XElem × List DNode) := do
  let argline ←
    match sig with
    | some s => do
      let b ← make_syntax_block [cleanupSig s]
      pure (some b)
    | none => pure none
  match indoc with
  | [] => throw Err.indexError
  | node :: _ =>
    if !is_para node then pure (argline, indoc)
    else
      let txt := pyStrip node.rawtext
      if !pyStartsWith txt (name ++ "(") then pure (argline, indoc)
      else throw (.assertionError "Need to understand this")

/-- The `clean` helper of `find_synopsis`: drop one leading and one
trailing occurrence of each listed punctuation character, in order. -/
def synopsis_clean (v : String) : String :=
  [',', '.', ':', '"', '\''].foldl
    (fun v c =>
      let v : String := if pyEndsWith v ⟨[c]⟩ then ⟨v.data.dropLast⟩ else v
      if pyStartsWith v ⟨[c]⟩ then ⟨v.data.drop 1⟩ else v)
    v

/-- The keyword value returned by `find_synopsis`: the no-synopsis branch
returns the empty string where the other branch returns a set of words —
`none` models the string, `some` the set (as the word list; every later
use sorts and deduplicates it or appends to it). -/
abbrev RefKeywords := Option (List String)

/-- `find_synopsis`: a leading paragraph becomes the SYNOPSIS, and its
cleaned lower-cased words become candidate refkeywords. -/
def find_synopsis (indoc : List DNode) :
    Except Err (Option XElem × RefKeywords × List DNode) :=
  match indoc with
  | [] => .error Err.indexError
  | node :: rest =>
    if node.tagname ≠ "paragraph" then .ok (none, none, indoc)
    else
      let syn := pyStrip node.rawtext
      let keys := (pyWords (pyLower syn)).map synopsis_clean
      .ok (some ((XElem.new "SYNOPSIS").setText syn), some keys, rest)

/-- Block loop of `find_desc`: convert each leading node and concatenate
the produced elements. -/
def find_desc_blocks (st : ConvState) : List DNode → Except Err (List XElem × ConvState)
  | [] => .ok ([], st)
  | para :: rest => do
    let (bs, st) ← make_para_blocks para st
    let (more, st) ← find_desc_blocks st rest
    pure (bs ++ more, st)

/-- The synonym paragraph of `find_desc`: at most one synonym is
supported and yields a fixed sentence. -/
def find_desc_synonyms : Option (List String) → Except Err (List XElem)
  | none => .ok []
  | some [s] => .ok [(XElem.new "PARA").setText
      ("The function is also called " ++ s ++ "().")]
  | some _ => .error (.assertionError "len(synonyms) == 1")

/-- `find_desc`: the description consumes leading nodes up to the first
rubric, field list, container or seealso; it is omitted entirely when
nothing qualifies and there is no synonym to inject. -/
def find_desc (indoc : List DNode) (synonyms : Option (List String)) (st : ConvState) :
    Except Err (Option XElem × List DNode × ConvState) :=
  let want := fun (x : DNode) =>
    !(x.tagname = "rubric" || x.tagname = "field_list" || x.tagname = "container" ||
      x.tagname = "seealso")
  let (pnodes, rnodes) := splitWhile want indoc
  if pnodes.isEmpty && synonyms.isNone then .ok (none, indoc, st)
  else do
    let syn ← find_desc_synonyms synonyms
    let (blocks, st) ← find_desc_blocks st pnodes
    pure (some ((XElem.new "DESC").pushAll (syn ++ blocks)), rnodes, st)

/-! ## Field lists -/

/-- One entry of the `raises` list collected by `find_fieldlist`. -/
inductive RaiseEntry where
  | plain (body : Option DNode)
  | withTokens (tokens : List String) (body : Option DNode)

/-- One parameter entry built by `find_fieldlist`.  The Python code keeps
a dictionary whose `param`, `type` and `ivar` keys may be absent, or
present with value `None`: the outer option models key presence, the
inner one the stored body. -/
structure ParamInfo where
  name : String
  param : Option (Option DNode) := none
  type : Option (Option DNode) := none
  ivar : Option (Option DNode) := none

/-- The structure returned by `find_fieldlist`. -/
structure FieldInfo where
  params : List ParamInfo
  returns : List (String × Option DNode)
  raises : List RaiseEntry

/-- Update the field of a parameter entry named by `t0`
(`store[t0] = body`). -/
def ParamInfo.store (p : ParamInfo) (t0 : String) (body : Option DNode) : ParamInfo :=
  if t0 = "param" then { p with param := some body }
  else if t0 = "type" then { p with type := some body }
  else { p with ivar := some body }

/-- Inner loop of `find_fieldlist` over one field's children: pick up the
field name and the field body. -/
def fieldlist_parts (name : Option String) (body : Option DNode) :
    List DNode → Except Err (Option String × Option DNode)
  | [] => .ok (name, body)
  | f :: fs =>
    if f.tagname = "field_name" then fieldlist_parts (some f.rawtext) body fs
    else if f.tagname = "field_body" then fieldlist_parts name (some f) fs
    else .error (.valueError "Unexpected field member")

/-- The running collections of the `find_fieldlist` loop. -/
structure FieldAcc where
  params : List ParamInfo := []
  returns : List (String × Option DNode) := []
  raises : List RaiseEntry := []

/-- One step of the `find_fieldlist` loop: classify a field by the first
token of its name and record it. -/
def fieldlist_step (acc : FieldAcc) (field : DNode) : Except Err FieldAcc :=
  if field.tagname ≠ "field" then .error (.assertionError "field")
  else do
    let (name, body) ← fieldlist_parts none none field.children
    match name with
    | none => throw (.attributeError "None.split")
    | some name =>
      let toks := pySplitChar1 name ' '
      match toks with
      | [] => throw Err.indexError
      | t0 :: restToks =>
        let ntoks := toks.length
        if t0 ∉ ["param", "ivar", "type", "rtype", "raises", "returns"] then
          throw (.assertionError name)
        else if t0 = "raises" then
          if ntoks = 1 then pure { acc with raises := acc.raises ++ [.plain body] }
          else pure { acc with raises := acc.raises ++ [.withTokens restToks body] }
        else if t0 = "returns" || t0 = "rtype" then
          if ntoks ≠ 1 then throw (.assertionError name)
          else pure { acc with returns := acc.returns ++ [(t0, body)] }
        else if ntoks ≠ 2 then throw (.assertionError name)
        else
          let pname := restToks.headI
          -- amalgamation heuristic for split ivar lines
          let tryMerge : Except Err (Option FieldAcc) :=
            if t0 = "ivar" && !acc.params.isEmpty then
              match acc.params.getLast? with
              | none => pure none
              | some prev =>
                if pyEndsWith (pyStrip prev.name) "," then
                  match prev.ivar with
                  | none => throw (.keyError "ivar")
                  | some none => throw (.typeError "len() of None")
                  | some (some d) =>
                    if d.children.length = 0 then
                      let newKey := prev.name ++ " " ++ pname
                      let merged := { prev with name := newKey, ivar := some body }
                      pure (some { acc with params := acc.params.dropLast ++ [merged] })
                    else pure none
                else pure none
            else pure none
          match ← tryMerge with
          | some acc => pure acc
          | none =>
            if acc.params.any fun p => p.name = pname then
              pure { acc with params :=
                acc.params.map fun p => if p.name = pname then p.store t0 body else p }
            else
              pure { acc with params :=
                acc.params ++ [ParamInfo.store { name := pname } t0 body] }

/-- Field loop of `find_fieldlist`. -/
def fieldlist_fold (acc : FieldAcc) : List DNode → Except Err FieldAcc
  | [] => .ok acc
  | f :: fs => do
    let acc ← fieldlist_step acc f
    fieldlist_fold acc fs

/-- `find_fieldlist`: parse a leading `field_list` node into parameter,
return and raises collections (conversion to ahelp happens later in
`extract_params`). -/
def find_fieldlist (indoc : List DNode) :
    Except Err (Option FieldInfo × List DNode) :=
  match indoc with
  | [] => .ok (none, indoc)
  | node :: rest =>
    if node.tagname ≠ "field_list" then .ok (none, indoc)
    else do
      let acc ← fieldlist_fold {} node.children
      pure (some ⟨acc.params, acc.returns, acc.raises⟩, rest)

/-- `find_warning`: a leading `warning` node with a single child becomes
an ADESC titled Warning. -/
def find_warning (indoc : List DNode) (refs : List String) :
    Except Err (Option XElem × List DNode) :=
  match indoc with
  | [] => .ok (none, indoc)
  | node :: rest =>
    if node.tagname ≠ "warning" then .ok (none, indoc)
    else
      match node.children with
      | [c] => do
        let t ← astext refs c
        pure (some ((XElem.new "ADESC").set "title" "Warning"
          |>.push ((XElem.new "PARA").setText t)), rest)
      | _ => .error (.assertionError "len(node.children) == 1")

/-- Name collection for the definition-list shape of `find_seealso`. -/
def seealso_names_dl : List DNode → Except Err (List String)
  | [] => .ok []
  | n :: ns =>
    if n.tagname ≠ "definition_list_item" then
      .error (.assertionError "definition_list_item")
    else
      match n.children with
      | [] => .error Err.indexError
      | term :: _ =>
        if term.tagname ≠ "term" then .error (.assertionError "term")
        else
          match term.children with
          | [] => .error Err.indexError
          | t0 :: _ =>
            if t0.tagname ≠ "literal" && t0.tagname ≠ "#text" then
              .error (.assertionError "term contents")
            else do
              let rest ← seealso_names_dl ns
              pure (t0.rawtext :: rest)

/-- Name collection for the paragraph shape of `find_seealso`. -/
def seealso_names_para : List DNode → Except Err (List String)
  | [] => .ok []
  | n :: ns =>
    if n.tagname ≠ "literal" && n.tagname ≠ "#text" then
      .error (.assertionError "literal or text")
    else do
      let rest ← seealso_names_para ns
      pure (n.rawtext :: rest)

/-- Clean-up loop of `find_seealso`: strip module paths, refuse any other
dotted name, and deduplicate preserving order. -/
def seealso_cleanup (out : List String) : List String → Except Err (List String)
  | [] => .ok out
  | n :: ns => do
    let n ←
      if pyStartsWith n "sherpa." then pure ((pySplitChar n '.').getLastD "")
      else if pyContains n "." then throw Err.systemExit
      else pure n
    if n ∈ out then seealso_cleanup out ns
    else seealso_cleanup (out ++ [n]) ns

/-- `find_seealso`: a leading `seealso` node yields the related symbol
names (only), from either a definition list or a flat paragraph. -/
def find_seealso (indoc : List DNode) :
    Except Err (Option (List String) × List DNode) :=
  match indoc with
  | [] => .ok (none, indoc)
  | node :: rest =>
    if node.tagname ≠ "seealso" then .ok (none, indoc)
    else
      match node.children with
      | [] => .error Err.indexError
      | c0 :: crest => do
        let names ←
          if c0.tagname = "definition_list" then
            if !crest.isEmpty then throw (.assertionError "len(node) == 1")
            else seealso_names_dl c0.children
          else if c0.tagname = "paragraph" then
            if !crest.isEmpty then throw (.assertionError "len(node) == 1")
            else seealso_names_para c0.children
          else throw (.valueError "Unexpected see also contents")
        let names := names.filter fun n => pyStrip n ≠ ","
        let out ← seealso_cleanup [] names
        pure (some out, rest)

/-- The XSPEC minimum-version sentences filtered out of a Notes section
(`version(v)` in `find_notes`). -/
def xspec_version_sentence (v : String) : String :=
  "This model is only available when used with XSPEC " ++ v ++ " or later."

/-- The `v12140` sentence of `find_notes`. -/
def v12140_sentence : String := "This model requires XSPEC 12.14.0 or later."

/-- Paragraph loop of `find_notes`: a paragraph mentioning the 12.14.0
requirement aborts (not implemented); everything else is converted and
appended. -/
def find_notes_blocks (st : ConvState) : List DNode → Except Err (List XElem × ConvState)
  | [] => .ok ([], st)
  | para :: rest =>
    if pyContains para.rawtext v12140_sentence then
      .error (.notImplementedError "this has got too complex")
    else do
      let (bs, st) ← make_para_blocks para st
      let (more, st) ← find_notes_blocks st rest
      pure (bs ++ more, st)

/-- `find_notes`: a rubric titled Notes starts a run (up to the next
rubric) that becomes an ADESC titled Notes; stale XSPEC minimum-version
sentences are dropped, and a model needing an unsupported XSPEC is
fatal. -/
def find_notes (indoc : List DNode) (st : ConvState) :
    Except Err (Option XElem × List DNode × ConvState) :=
  match indoc with
  | [] => .ok (none, indoc, st)
  | node :: after =>
    if node.tagname ≠ "rubric" then .ok (none, indoc, st)
    else if pyStrip node.rawtext ≠ "Notes" then .ok (none, indoc, st)
    else
      let (lnodes, rnodes) := splitWhile (fun x => x.tagname ≠ "rubric") after
      let lnodes := lnodes.filter fun n =>
        n.rawtext ∉ ((["12.9.1", "12.10.0", "12.10.1", "12.11.0",
                       "12.12.0", "12.13.0"].map xspec_version_sentence) ++
                     [v12140_sentence])
      if lnodes.isEmpty then .ok (none, rnodes, st)
      else if lnodes.any fun n =>
          n.rawtext ∈ [xspec_version_sentence "12.12.1",
                       "This model requires XSPEC 12.15.0 or later."] then
        .error (.runtimeError "looks like the model is unsupported in CIAO")
      else do
        let (blocks, st) ← find_notes_blocks st lnodes
        if blocks.isEmpty then throw (.assertionError "len(out) > 0")
        else pure (some (((XElem.new "ADESC").set "title" "Notes").pushAll blocks),
          rnodes, st)

/-- The lines produced for the `enumerated_list` shape of a References
section: one LINE per list item, an HREF when the item leads with a
reference. -/
def references_enum_lines : List DNode → Except Err (List XElem)
  | [] => .ok []
  | subelem :: rest =>
    if subelem.tagname ≠ "list_item" then .error (.assertionError "list_item")
    else
      match subelem.children with
      | [] => .error Err.indexError
      | para :: _ =>
        if para.tagname ≠ "paragraph" then .error (.assertionError "paragraph")
        else do
          let line ←
            match para.children with
            | [] => throw Err.indexError
            | p0 :: prest =>
              if p0.tagname = "reference" then
                match p0.attrs.refuri with
                | none => throw (.attributeError "None.startswith")
                | some uri =>
                  if !pyStartsWith uri "http" then throw (.assertionError "refuri http")
                  else pure ((XElem.new "LINE").push
                    (((XElem.new "HREF").setText p0.rawtext).set "link" uri))
              else
                if !prest.isEmpty then throw (.assertionError "len(para) == 1")
                else pure ((XElem.new "LINE").setText para.rawtext)
          let more ← references_enum_lines rest
          pure (line :: more)

/-- The LINE produced for one `footnote` item of a References section:
the three supported footnote shapes become an HREF (or plain text) line. -/
def references_footnote_line (footnote : DNode) : Except Err XElem :=
  match footnote.children with
  | [c0, c1] =>
    if c0.tagname ≠ "label" then .error (.assertionError "label")
    else if c1.tagname ≠ "paragraph" then .error (.assertionError "paragraph")
    else
      match c1.children with
      | [f0, f1] =>
        if !pyStartsWith f1.rawtext "http" then .error (.assertionError "http")
        else .ok ((XElem.new "LINE").push
          ((((XElem.new "HREF").setText
            ("[" ++ c0.rawtext ++ "] " ++ f0.rawtext)).set "link" f1.rawtext)))
      | [_] =>
        let l := c0.rawtext
        let r := c1.rawtext
        if pyStartsWith r "http" then
          .ok ((XElem.new "LINE").push
            (((XElem.new "HREF").setText ("[" ++ l ++ "]")).set "link" r))
        else .ok ((XElem.new "LINE").setText ("[" ++ l ++ "] " ++ r))
      | [] => .error Err.indexError
      | f0 :: frest =>
        if f0.tagname = "reference" then
          match f0.attrs.refuri with
          | none => .error (.attributeError "None.startswith")
          | some refuri =>
            if !pyStartsWith refuri "http" then .error (.assertionError "footnote structure")
            else
              let txt :=
                if f0.rawtext = refuri then "[" ++ c0.rawtext ++ "]"
                else "[" ++ c0.rawtext ++ "] " ++ f0.rawtext
              let dump := pyJoin "" (frest.map DNode.rawtext)
              .ok ((XElem.new "LINE").push
                ((((XElem.new "HREF").setText txt).set "link" refuri).setTail dump))
        else .error (.assertionError "footnote structure")
  | _ => .error (.assertionError "len(footnote) == 2")

/-- Item loop of `find_references`: footnotes, reference paragraphs,
citations and enumerated lists each contribute LINEs. -/
def references_lines : List DNode → Except Err (List XElem)
  | [] => .ok []
  | footnote :: rest => do
    let lines ←
      if footnote.tagname = "footnote" then do
        let l ← references_footnote_line footnote
        pure [l]
      else if footnote.tagname = "paragraph" then
        match footnote.children with
        | [r, t] =>
          if r.tagname ≠ "reference" then throw (.assertionError "REFERENCE")
          else if t.tagname ≠ "target" then throw (.assertionError "TARGET")
          else
            match r.attrs.refuri with
            | none => throw (.attributeError "None.startswith")
            | some uri =>
              if !pyStartsWith uri "http" then throw (.assertionError "URI")
              else pure [(XElem.new "LINE").push
                (((XElem.new "HREF").setText r.rawtext).set "link" uri)]
        | _ => throw (.assertionError "len(footnote) == 2")
      else if footnote.tagname = "citation" then
        match footnote.children with
        | [c0, c1] =>
          if c0.tagname ≠ "label" then throw (.assertionError "label")
          else if c1.tagname ≠ "paragraph" then throw (.assertionError "paragraph")
          else if !pyStartsWith c1.rawtext "http" then throw (.assertionError "http")
          else pure [(XElem.new "LINE").push
            (((XElem.new "HREF").setText c0.rawtext).set "link" c1.rawtext)]
        | _ => throw (.assertionError "len(footnote) == 2")
      else if footnote.tagname = "enumerated_list" then
        references_enum_lines footnote.children
      else throw (.assertionError footnote.tagname)
    let more ← references_lines rest
    pure (lines ++ more)

/-- `find_references`: a rubric titled References starts a run (up to the
next rubric) that becomes an ADESC holding one PARA whose SYNTAX lists
the reference lines. -/
def find_references (indoc : List DNode) :
    Except Err (Option XElem × List DNode) :=
  match indoc with
  | [] => .ok (none, indoc)
  | node :: after =>
    if node.tagname ≠ "rubric" then .ok (none, indoc)
    else if pyStrip node.rawtext ≠ "References" then .ok (none, indoc)
    else do
      let (lnodes, rnodes) := splitWhile (fun x => x.tagname ≠ "rubric") after
      let lines ← references_lines lnodes
      let syntax_el := (XElem.new "SYNTAX").pushAll lines
      let para := (XElem.new "PARA").push syntax_el
      pure (some (((XElem.new "ADESC").set "title" "References").push para), rnodes)

/-- Example text post-processing of one ITEM list
(`item.text = convert_example_text(item.text)`). -/
def apply_example_items (cet : String → String) : List XElem → Except Err (List XElem)
  | [] => .ok []
  | it :: its =>
    match it.text with
    | none => .error (.attributeError "None.split")
    | some t => do
      let rest ← apply_example_items cet its
      pure (it.setText (cet t) :: rest)

/-- Example text post-processing of one produced block: PARA and VERBATIM
texts and LIST item texts go through `convert_example_text`; any other
element is fatal. -/
def apply_example_text (cet : String → String) (p : XElem) : Except Err XElem :=
  if p.tag = "PARA" || p.tag = "VERBATIM" then
    match p.text with
    | none => .error (.attributeError "None.split")
    | some t => .ok (p.setText (cet t))
  else if p.tag = "LIST" then do
    let items ← apply_example_items cet p.children
    pure (match p with | .mk t a x l _ => .mk t a x l items)
  else .error (.runtimeError ("Did not expect " ++ p.tag ++ " in example text"))

/-- Block list post-processing for one example node. -/
def apply_example_blocks (cet : String → String) : List XElem → Except Err (List XElem)
  | [] => .ok []
  | b :: bs => do
    let b ← apply_example_text cet b
    let rest ← apply_example_blocks cet bs
    pure (b :: rest)

/-- The example-opening step of the `find_examples` loop: with no DESC
open, a paragraph starting with a lower-case letter re-opens the previous
example, anything else starts a new one. -/
def find_examples_new_out (out : List (List XElem)) (descOpen : Bool)
    (para : DNode) : Except Err (List (List XElem)) :=
  if !descOpen then
    if para.tagname = "paragraph" && out.length ≥ 1 then
      match para.rawtext.data with
      | [] => throw Err.indexError
      | c :: _ => if c.isLower then pure out else pure (out ++ [[]])
    else pure (out ++ [[]])
  else pure out

/-- Node loop of `find_examples`: track the list of examples (each a DESC
content list) and whether a DESC is currently open (it is then always the
last example's). -/
def find_examples_loop (cet : String → String) (st : ConvState)
    (out : List (List XElem)) (descOpen : Bool) :
    List DNode → Except Err (List (List XElem) × ConvState)
  | [] => .ok (out, st)
  | para :: rest =>
    let name := para.tagname
    if name ∉ ["paragraph", "doctest_block", "block_quote", "literal_block",
               "bullet_list"] then
      .error (.assertionError name)
    else do
      let out ← find_examples_new_out out descOpen para
      let (blocks, st) ← make_para_blocks para st
      let blocks ← apply_example_blocks cet blocks
      let out := out.dropLast ++ [out.getLastD [] ++ blocks]
      find_examples_loop cet st out (name = "paragraph" || name = "bullet_list") rest

/-- `find_examples`: a rubric titled Examples (or Example) starts a run
(up to the next rubric) that becomes a QEXAMPLELIST of QEXAMPLE elements,
each holding a DESC.  `cet` abstracts the regex helper
`convert_example_text`, a pure string rewrite of model spellings. -/
def find_examples (cet : String → String) (indoc : List DNode) (st : ConvState) :
    Except Err (Option XElem × List DNode × ConvState) :=
  match indoc with
  | [] => .ok (none, indoc, st)
  | node :: after =>
    if node.tagname ≠ "rubric" then .ok (none, indoc, st)
    else
      let txt := pyStrip node.rawtext
      if txt ∉ ["Examples", "Example"] then .ok (none, indoc, st)
      else do
        let (lnodes, rnodes) := splitWhile (fun x => x.tagname ≠ "rubric") after
        let (out, st) ← find_examples_loop cet st [] false lnodes
        pure (some ((XElem.new "QEXAMPLELIST").pushAll
          (out.map fun d => (XElem.new "QEXAMPLE").push ((XElem.new "DESC").pushAll d))),
          rnodes, st)

/-! ## Parameter tables -/

/-- The type cell of one parameter row (`txt` in the source): a missing
type key yields the empty string, a `None` body is fatal, otherwise the
field body's converted text. -/
def extract_params_type_cell (ptype : Option (Option DNode)) (refs : List String) :
    Except Err (Option String × List String) :=
  match ptype with
  | none => .ok (some "", refs)
  | some none => .error (Err.attributeError "None.tagname")
  | some (some tinfo) => do
    let (conv, refs) ← convert_field_body tinfo refs
    pure (conv.text, refs)

/-- The description cell of one parameter row: the `param` body, else the
`ivar` body, else empty. -/
def extract_params_desc_cell (par : ParamInfo) (refs : List String) :
    Except Err (Option String × List String) :=
  match par.param with
  | some none => .error (Err.attributeError "None.tagname")
  | some (some body) => do
    let (block, refs) ← convert_field_body body refs
    pure (block.text, refs)
  | none =>
    match par.ivar with
    | some none => .error (Err.attributeError "None.tagname")
    | some (some body) => do
      let (block, refs) ← convert_field_body body refs
      pure (block.text, refs)
    | none => .ok (some "", refs)

/-- One parameter table row of `extract_params`: name cell, optional type
cell, description cell. -/
def extract_params_row (hasType : Bool) (par : ParamInfo) (refs : List String) :
    Except Err (XElem × List String) := do
  let row := (XElem.new "ROW").push ((XElem.new "DATA").setText par.name)
  let (row, refs) ←
    if hasType then do
      let (txt, refs) ← extract_params_type_cell par.type refs
      pure (row.push (XElem.mk "DATA" [] txt none []), refs)
    else pure (row, refs)
  let (text, refs) ← extract_params_desc_cell par refs
  pure (row.push (XElem.mk "DATA" [] text none []), refs)

/-- Row loop of the `extract_params` table. -/
def extract_params_rows (hasType : Bool) (refs : List String) :
    List ParamInfo → Except Err (List XElem × List String)
  | [] => .ok ([], refs)
  | par :: pars => do
    let (row, refs) ← extract_params_row hasType par refs
    let (rest, refs) ← extract_params_rows hasType refs pars
    pure (row :: rest, refs)

/-- The return-value block of `extract_params`: a lone return name is
dropped, otherwise the field body converts to a PARA. -/
def extract_params_return_value : List (Option DNode) → List String →
    Except Err (Option XElem × List String)
  | [], refs => .ok (none, refs)
  | none :: _, _ => .error (Err.attributeError "None.tagname")
  | some rv :: _, refs =>
    if rv.tagname ≠ "field_body" then .error (.assertionError "field_body")
    else
      match rv.children with
      | [] => .error Err.indexError
      | c0 :: _ => do
        let t ← astext refs c0
        if (pyWords (pyStrip t)).length = 1 then pure (none, refs)
        else do
          let (el, refs) ← convert_field_body rv refs
          pure (some el, refs)

/-- `extract_params`: turn the collected field-list information into a
PARAMETERS (or ATTRIBUTES) section with a parameter table and an optional
return-value paragraph. -/
def extract_params (fieldinfo : Option FieldInfo) (refs : List String) :
    Except Err (Option XElem × List String) :=
  match fieldinfo with
  | none => .ok (none, refs)
  | some fi => do
    let parinfo := fi.params
    let retinfo := fi.returns
    let is_attrs := parinfo.any fun p => p.ivar.isSome
    let nparams := parinfo.length
    let nret := retinfo.length
    if nparams = 0 && nret = 0 then
      if fi.raises.isEmpty then throw (.assertionError "raises present")
      else pure (none, refs)
    else do
      let funcname := if is_attrs then "object" else "function"
      let value := if is_attrs then "attribute" else "parameter"
      let rvals := (retinfo.filter fun r => r.1 = "returns").map Prod.snd
      if rvals.length ≥ 2 then throw (.assertionError "len(rvals) < 2")
      else do
        let (return_value, refs) ← extract_params_return_value rvals refs
        if nparams = 0 && return_value.isNone then pure (none, refs)
        else do
          let adesc := (XElem.new "ADESC").set "title" (pyUpper value ++ "S")
          let ptext :=
            if nparams = 0 then "This " ++ funcname ++ " has no " ++ value ++ "s"
            else if nparams = 1 then
              "The " ++ value ++ " for this " ++ funcname ++ " is:"
            else "The " ++ value ++ "s for this " ++ funcname ++ " are:"
          let adesc := adesc.push ((XElem.new "PARA").setText ptext)
          let (adesc, refs) ←
            if nparams > 0 then do
              let hasType := parinfo.any fun p => p.type.isSome
              let row0 := (XElem.new "ROW").push
                  ((XElem.new "DATA").setText (pyCapitalize value))
              let row0 :=
                if hasType then row0.push ((XElem.new "DATA").setText "Type information")
                else row0
              let row0 := row0.push ((XElem.new "DATA").setText "Definition")
              let (rows, refs) ← extract_params_rows hasType refs parinfo
              pure (adesc.push (((XElem.new "TABLE").push row0).pushAll rows), refs)
            else pure (adesc, refs)
          match return_value with
          | none => pure (some adesc, refs)
          | some rv =>
            let p2 := ((XElem.new "PARA").set "title" "Return value").setText
              "The return value from this function is:"
            pure (some ((adesc.push p2).push rv), refs)

/-! ## The symbol boundary

Introspection of the documented Python symbol is an external collaborator
(class hierarchy checks and model instantiation); its observable results
are carried as plain data. -/

/-- The XSPEC model class kinds distinguished by `issubclass` checks. -/
inductive ModelKind where
  | xsadditive
  | xsmultiplicative
  | xsconvolution
  | plain
deriving Repr, DecidableEq

/-- What the module reads off the `symbol` argument: whether it is a
`ModelWrapper`, which XSPEC base class its model type derives from,
the lower-cased model type name (`symbol.modeltype.__name__.lower()`)
and the printed default instance (`str(symbol.modeltype("mdl"))`). -/
structure SymbolInfo where
  isModelWrapper : Bool := false
  modelKind : ModelKind := .plain
  mtypeNameLower : String := ""
  strval : String := ""

/-- `add_xspec_model_to_syntax`: append a blank LINE and a line naming
the XSPEC model class to a SYNTAX block. -/
def add_xspec_model_to_syntax (syntax_el : XElem) (name : String) (kind : ModelKind) :
    Except Err XElem := do
  let syntax_el := syntax_el.push ((XElem.new "LINE").setText "")
  let mdesc ←
    match kind with
    | .xsadditive => pure "an additive"
    | .xsmultiplicative => pure "a multiplicative"
    | .xsconvolution => pure "a convolution"
    | .plain => throw (.runtimeError ("Unexpected XSPEC model component: " ++ name))
  pure (syntax_el.push ((XElem.new "LINE").setText
    ("The " ++ name ++ " model is " ++ mdesc ++ " model component.")))

/-- `augment_examples`: for a model symbol, prepend a synthetic example
that creates a model component and shows its default parameters. -/
def augment_examples (examples : Option XElem) (symbol : Option SymbolInfo) :
    Option XElem :=
  match symbol with
  | none => examples
  | some sym =>
    if !sym.isModelWrapper then examples
    else
      let mtype := sym.mtypeNameLower
      let examplesEl := match examples with
        | none => XElem.new "QEXAMPLELIST"
        | some e => e
      let syn := ((XElem.new "SYNTAX").push
        ((XElem.new "LINE").setText
          (">>> create_model_component(\"" ++ mtype ++ "\", \"mdl\")"))).push
        ((XElem.new "LINE").setText ">>> print(mdl)")
      let desc := ((XElem.new "DESC").push
        ((XElem.new "PARA").setText
          ("Create a component of the " ++ mtype ++ " model " ++
           "and display its default parameters. The output is:"))).push
        ((XElem.new "VERBATIM").setText sym.strval)
      let ex := ((XElem.new "QEXAMPLE").push syn).push desc
      some (match examplesEl with
        | .mk t a x l cs => .mk t a x l (ex :: cs))

/-- `create_seealso`: propose the seealsogroups metadata — lower-cased
sorted name pairs — and a display group for Sherpa or XSPEC models. -/
def create_seealso (name : String) (seealso : Option (List String))
    (symbol : Option SymbolInfo) : String × String :=
  let dsg :=
    match symbol with
    | none => ""
    | some sym =>
      if !sym.isModelWrapper then ""
      else if sym.modelKind = .plain then "shmodels"
      else "xsmodels"
  match seealso with
  | none => ("", dsg)
  | some sa =>
    let nlower := pyLower name
    let pairs := sa.map fun s =>
      let t2 := pyLower s
      if pyLt nlower t2 then nlower ++ t2 else t2 ++ nlower
    (pyJoin " " (pySorted pairs), dsg)

/-- `find_context`: the ahelp context for a symbol — a battery of name
and membership rules, first match winning, falling back to a sentinel. -/
def find_context (name : String) (symbol : Option SymbolInfo) : String :=
  if (match symbol with | some sym => sym.isModelWrapper | none => false) then "models"
  else if name ∈ ["get_conf_results", "get_confidence_results", "get_conf_opt",
                  "get_covar_results", "get_covar_opt",
                  "get_proj_results", "get_proj_opt"] then "confidence"
  else if pyStartsWith name "get_method" then "methods"
  else if name ∈ ["fit_bkg", "get_fit_results"] then "fitting"
  else if name ∈ ["ignore2d_image", "notice2d_image"] then "filtering"
  else if name ∈ ["get_bkg_model", "get_bkg_source", "get_model_pars",
                  "get_model_type", "get_num_par_frozen", "get_num_par_thawed",
                  "get_xsabund", "get_xscosmo", "get_xsxsect", "get_xsxset",
                  "load_template_interpolator", "load_xstable_model",
                  "get_xschatter", "set_xschatter", "set_bkg_full_model"] then "modeling"
  else if name ∈ ["get_sampler_name", "get_sampler_opt", "get_stat_name"] then
    "statistics"
  else if pyStartsWith name "plot_" || pyContains name "_plot" then "plotting"
  else if pyStartsWith name "group" ||
      name ∈ ["create_arf", "create_rmf", "get_bkg_arf", "get_bkg_rmf",
              "load_ascii_with_errors", "resample_data"] then "data"
  else if name ∈ ["multinormal_pdf", "multit_pdf"] then "utilities"
  else if name ∈ ["get_data_contour", "get_data_contour_prefs", "get_data_image",
                  "get_fit_contour", "get_kernel_contour", "get_kernel_image",
                  "get_model_contour", "get_model_contour_prefs", "get_model_image",
                  "get_psf_contour", "get_psf_image", "get_ratio_contour",
                  "get_ratio_image", "get_resid_contour", "get_resid_image",
                  "get_source_contour", "get_source_image"] then "visualization"
  else if name ∈ ["get_functions", "list_pileup_model_ids", "list_psf_ids"] then
    "info"
  else if name = "delete_pileup_model" then "model"
  else "sherpaish"

/-! ## Metadata merging -/

/-- Python `sorted(list(set(xs)))` for strings: deduplicate, then sort. -/
def pySortedSet (xs : List String) : List String := pySorted xs.dedup

/-- The metadata mapping built in `convert_docutils`: a fixed-key
dictionary whose values may be `None` (the `context` key starts as
`None`). -/
abbrev Metadata := List (String × Option String)

/-- Dictionary lookup: `none` when the key is absent, `some v` (with `v`
possibly `none`, Python `None`) when present. -/
def metaFind (m : Metadata) (k : String) : Option (Option String) :=
  (m.find? fun p => p.1 = k).map Prod.snd

/-- Dictionary value update for an existing key (`m[k] = v`). -/
def metaSet (m : Metadata) (k : String) (v : Option String) : Metadata :=
  m.map fun p => if p.1 = k then (k, v) else p

/-- The `append_values` helper of `merge_metadata`: whitespace-split both
values, form the set union, sort, and re-join with single spaces. -/
def append_values (xmlattrs : Metadata) (k v : String) : Except Err String :=
  match metaFind xmlattrs k with
  | none => .error (.keyError k)
  | some none => .error (.attributeError "None.split")
  | some (some cur) => .ok (pyJoin " " (pySortedSet (pyWords cur ++ pyWords v)))

/-- Key loop of `merge_metadata`: each override key must exist in the base
mapping; the three multi-value keys merge by set union, all others are
replaced outright. -/
def merge_metadata_fold (acc : Metadata) : List (String × String) → Except Err Metadata
  | [] => .ok acc
  | (k, v) :: rest =>
    if (metaFind acc k).isNone then .error (.assertionError "k in xmlattrs")
    else if k ∈ ["seealsogroups", "displayseealsogroups", "refkeywords"] then do
      let nv ← append_values acc k v
      merge_metadata_fold (metaSet acc k (some nv)) rest
    else merge_metadata_fold (metaSet acc k (some v)) rest

/-- `merge_metadata`: combine the docstring-derived metadata with the
externally supplied values. -/
def merge_metadata (xmlattrs : Metadata) (metadata : Option (List (String × String))) :
    Except Err Metadata :=
  match metadata with
  | none => .ok xmlattrs
  | some md => merge_metadata_fold xmlattrs md

/-! ## Assembly -/

/-- The Voigt special case inside the version flush: for the two listed
model names the added entry gets a fixed replacement text (its text must
still be unset). -/
def voigtFix (name : String) (p : XElem) : Except Err XElem :=
  if name ∈ ["pseudovoigt1d", "voigt1d"] then
    match p.text with
    | some _ => .error (.assertionError "p.text is None")
    | none => .ok (p.setText
        ("The pseudovoigt1d and voigt1d models were added in CIAO 4.13 " ++
         "and replace the absorptionvoigt and emissionvoigt models."))
  else .ok p

/-- Added-entry loop of the version flush. -/
def voigtFixAll (name : String) : List XElem → Except Err (List XElem)
  | [] => .ok []
  | p :: ps => do
    let p ← voigtFix name p
    let rest ← voigtFixAll name ps
    pure (p :: rest)

/-- The version-history flush of `convert_docutils` (the `versioninfo`
block): consolidate the recorded entries into one ADESC — all Changed
entries first, then all Added entries; the CIAO 4.14 collapse drops the
Changed entries for three allow-listed models and is fatal for any other
name; finally the store is marked DONE. -/
def flush_stored_versions (name : String) (store : Option VersionStore) :
    Except Err (Option XElem × VersionStore) :=
  match store with
  | none => .error (.attributeError "None.keys")
  | some sv =>
    if sv.done then .error (.assertionError "store key")
    else do
      let skippy1 := sv.versionchanged.map fun p =>
        p.get "title" == some "Changed in CIAO 4.14"
      let skippy2 := sv.versionadded.map fun p =>
        p.get "title" == some "New in CIAO 4.14"
      let sv ←
        if skippy1.any id && skippy2.any id then
          if name ∉ ["xsagnslim", "xsbwcycl", "xszkerrbb"] then
            throw (.runtimeError "problem")
          else pure { sv with versionchanged := [] }
        else pure sv
      let fixedAdded ← voigtFixAll name sv.versionadded
      let added := sv.versionchanged.length + sv.versionadded.length
      let versioninfo :=
        if added = 0 then none
        else some (((XElem.new "ADESC").set "title" "Changes in CIAO").pushAll
          (sv.versionchanged ++ fixedAdded))
      pure (versioninfo, { sv with versionadded := fixedAdded, done := true })

/-- The sections produced by the segmentation phase of
`convert_docutils`, together with the unconsumed remainder. -/
structure SegmentOut where
  syntax_el : Option XElem
  synopsis : Option XElem
  refkeywords : RefKeywords
  desc : Option XElem
  params : Option XElem
  warnings : Option XElem
  seealso : Option (List String)
  notes : Option XElem
  notes2 : Option XElem
  refs : Option XElem
  examples : Option XElem
  nodes : List DNode

/-- The XSPEC-model adjustment of the syntax block inside
`convert_docutils` (the `add_xspec_model_to_syntax` call and its guard). -/
def segment_adjust_syntax (symbol : Option SymbolInfo) (name : String)
    (syntax0 : Option XElem) : Except Err (Option XElem) :=
  match symbol with
  | some sym =>
    if sym.isModelWrapper && sym.modelKind ≠ .plain then
      match syntax0 with
      | none => throw (.assertionError "syntax is not None")
      | some s => do
        let s ← add_xspec_model_to_syntax s name sym.modelKind
        pure (some s)
    else pure syntax0
  | none => pure syntax0

/-- The late see-also retry of `convert_docutils` (after the parameter
field list, with a misplacement diagnostic). -/
def find_seealso_retry (seealso : Option (List String)) (nodes : List DNode) :
    Except Err (Option (List String) × List DNode) :=
  match seealso with
  | none => find_seealso nodes
  | some _ => .ok (seealso, nodes)

/-- The late references retry of `convert_docutils` (references found
after the examples, with a diagnostic). -/
def find_references_retry (refs : Option XElem) (nodes : List DNode) :
    Except Err (Option XElem × List DNode) :=
  match refs with
  | none => find_references nodes
  | some _ => .ok (refs, nodes)

/-- The segmentation phase of `convert_docutils`: the ordered battery of
section extractors, applied to the node list front to back exactly as in
the source (syntax, synopsis, description, first field list, warning,
see-also, second field list, parameters, late see-also, notes, duplicate
notes, references, examples, late references). -/
def segment_document (cleanupSig cet : String → String) (name : String)
    (sig : Option String) (symbol : Option SymbolInfo)
    (synonyms : Option (List String)) (doc : List DNode) (st : ConvState) :
    Except Err (SegmentOut × ConvState) := do
  let nodes := doc
  let (syntax0, nodes) ← find_syntax cleanupSig name sig nodes
  let (synopsis, refkeywords, nodes) ← find_synopsis nodes
  let (desc, nodes, st) ← find_desc nodes synonyms st
  let syntax0 ← segment_adjust_syntax symbol name syntax0
  let (fieldlist1, nodes) ← find_fieldlist nodes
  let (warnings, nodes) ← find_warning nodes st.references
  let (seealso, nodes) ← find_seealso nodes
  let (fieldlist2, nodes) ← find_fieldlist nodes
  -- a second field list is ignored with a diagnostic
  let _ := fieldlist2
  let (params, refs2) ← extract_params fieldlist1 st.references
  let st := { st with references := refs2 }
  let (seealso, nodes) ← find_seealso_retry seealso nodes
  let (notes, nodes, st) ← find_notes nodes st
  let (notes2, nodes, st) ← find_notes nodes st
  let (refs, nodes) ← find_references nodes
  let (examples, nodes, st) ← find_examples cet nodes st
  let examples := augment_examples examples symbol
  let (refs, nodes) ← find_references_retry refs nodes
  pure (⟨syntax0, synopsis, refkeywords, desc, params, warnings, seealso,
         notes, notes2, refs, examples, nodes⟩, st)

/-- The refkeywords post-processing of `convert_docutils`: the
`xszkerrbb` additions, then `sorted(list(set(...)))`, then the
underscore-split pieces of the symbol name. -/
def assembly_refkeywords (name : String) (rk : RefKeywords) :
    Except Err (List String) := do
  let rk ←
    if name = "xszkerrbb" then
      match rk with
      | none => throw (Err.attributeError "str.add")
      | some l => pure (some (l ++ ["kerrbb", "xskerrbb"]))
    else pure rk
  let rk : List String :=
    match rk with
    | none => []
    | some l => pySortedSet l
  pure (if pyContains name "_" then rk ++ pySplitChar name '_' else rk)

/-- The synonym prefixing of the refkeywords attribute in
`convert_docutils`. -/
def assembly_prepend_synonyms (synonyms : Option (List String))
    (xmlattrs : Metadata) : Except Err Metadata :=
  match synonyms with
  | some syns =>
    match metaFind xmlattrs "refkeywords" with
    | some (some cur) =>
      .ok (metaSet xmlattrs "refkeywords" (some (pyJoin " " syns ++ " " ++ cur)))
    | some none => .error (Err.typeError "cannot concatenate None")
    | none => .error (Err.keyError "refkeywords")
  | none => .ok xmlattrs

/-- What `convert_docutils` returns: normally the assembled output tree,
but when unconsumed nodes remain it returns those nodes instead. -/
inductive ConvResult where
  | document (root : XElem)
  | trailing (nodes : List DNode)

/-- `convert_docutils`: convert one parsed document to the ahelp tree.
`cleanupSig` and `cet` abstract the pure regex string helpers
`cleanup_sig` and `convert_example_text`; the version store is reset at
entry (the reference registry is not). -/
def convert_docutils (cleanupSig cet : String → String) (name : String)
    (doc : List DNode) (sig : Option String) (symbol : Option SymbolInfo)
    (metadata : Option (List (String × String))) (synonyms : Option (List String))
    (dtd : String) (st : ConvState) : Except Err (ConvResult × ConvState) :=
  if dtd ∉ ["ahelp", "sxml"] then .error (.valueError "Unrecognized dtd value")
  else if synonyms = some [] then .error (.assertionError "synonyms")
  else do
    let st := { st with store_versions := some reset_stored_versions }
    let (seg, st) ← segment_document cleanupSig cet name sig symbol synonyms doc st
    if !seg.nodes.isEmpty then
      pure (.trailing seg.nodes, st)
    else do
      let (seealsotags, displayseealsotags) := create_seealso name seg.seealso symbol
      let (versioninfo, sv) ← flush_stored_versions name st.store_versions
      let st := { st with store_versions := some sv }
      let refkeywords ← assembly_refkeywords name seg.refkeywords
      let xmlattrs : Metadata :=
        [("pkg", some "sherpa"), ("key", some name),
         ("refkeywords", some (pyJoin " " refkeywords)),
         ("seealsogroups", some seealsotags),
         ("displayseealsogroups", some displayseealsotags),
         ("context", none)]
      let xmlattrs ← merge_metadata xmlattrs metadata
      let xmlattrs :=
        if metaFind xmlattrs "context" = some none then
          metaSet xmlattrs "context" (some (find_context name symbol))
        else xmlattrs
      let xmlattrs ← assembly_prepend_synonyms synonyms xmlattrs
      let rootname := if dtd = "ahelp" then "cxchelptopics" else "cxcdocumentationpage"
      -- every value of xmlattrs is a string at this point
      let entry := XElem.mk "ENTRY"
        (xmlattrs.filterMap fun p => p.2.map fun v => (p.1, v)) none none []
      let entry := entry.pushAll
        (([seg.synopsis, seg.syntax_el, seg.desc, seg.examples, seg.params,
           seg.warnings, seg.notes, seg.notes2, seg.refs,
           versioninfo].filterMap id))
      let entry :=
        if pyContains name "xs" then
          let xpara := (XElem.new "PARA").setText
            (CIAOVER ++ " comes with support for version " ++ XSPECVER ++
             " of the XSPEC models. This can be " ++
             "checked with the following:")
          let cstr := "% python -c 'from sherpa.astro import xspec; " ++
            "print(xspec.get_xsversion())'"
          let xsyn := ((XElem.new "SYNTAX").push
            ((XElem.new "LINE").setText cstr)).push
            ((XElem.new "LINE").setText XSPECVER)
          let xpara2 := (XElem.new "PARA").push xsyn
          entry.push ((((XElem.new "ADESC").set "title" "XSPEC version").push
            xpara).push xpara2)
        else entry
      let link := (((XElem.new "HREF").set "link"
        "https://cxc.harvard.edu/sherpa/bugs/").setText
        "bugs pages on the Sherpa website").setTail
        " for an up-to-date listing of known bugs."
      let bugs := (XElem.new "BUGS").push
        (((XElem.new "PARA").setText "See the ").push link)
      let entry := entry.push bugs
      let entry := entry.push ((XElem.new "LASTMODIFIED").setText LASTMOD)
      pure (.document ((XElem.new rootname).push entry), st)

/-- Discriminator on the conversion result. -/
def ConvResult.isDocument : ConvResult → Bool
  | .document _ => true
  | .trailing _ => false

/-! ## Supporting lemmas -/

theorem XElem.tag_setText (e : XElem) (s : String) : (e.setText s).tag = e.tag := by
  cases e; rfl

theorem XElem.tag_setTail (e : XElem) (s : String) : (e.setTail s).tag = e.tag := by
  cases e; rfl

theorem XElem.tag_set (e : XElem) (k v : String) : (e.set k v).tag = e.tag := by
  cases e with
  | mk t a x l cs => simp only [XElem.set]; split <;> rfl

theorem mem_setAdd (x : String) (s : List String) : x ∈ setAdd x s := by
  unfold setAdd; split <;> simp_all

theorem mem_setAdd_of_mem {y : String} (x : String) {s : List String} (h : y ∈ s) :
    y ∈ setAdd x s := by
  unfold setAdd; split <;> simp_all

theorem setAdd_subset (x : String) (s : List String) : s ⊆ setAdd x s :=
  fun _ h => mem_setAdd_of_mem x h

/-! ## Claim theorems -/

/-- Claim C10: for every internal version string of the form `4.N.0`
(three dot-separated tokens, first `4`, last `0`), the release
translation returns `4.N` — the drop-trailing-zero rule fires before any
release-shift mapping; in particular `4.17.0` translates to `4.17` while
`4.17.1` translates to `4.18`. -/
theorem convert_version_number_drops_trailing_zero :
    (∀ (v n : String), pySplitChar v '.' = ["4", n, "0"] →
      convert_version_number v = .ok ("4." ++ n)) ∧
    convert_version_number "4.17.0" = .ok "4.17" ∧
    convert_version_number "4.17.1" = .ok "4.18" := by
  refine ⟨fun v n h => ?_, rfl, rfl⟩
  unfold convert_version_number
  rw [h]
  simp

/-- Witness for claim C10 at the concrete inputs `4.17.0` and `4.9.0`. -/
theorem convert_version_number_drops_trailing_zero_witness :
    convert_version_number "4.17.0" = .ok ("4." ++ "17") ∧
    convert_version_number "4.9.0" = .ok ("4." ++ "9") :=
  ⟨convert_version_number_drops_trailing_zero.1 "4.17.0" "17" rfl,
   convert_version_number_drops_trailing_zero.1 "4.9.0" "9" rfl⟩

/-- Claim C9: a target node processed during rendering must carry exactly
one name — zero names, or two or more, fail the assertion regardless of
the registry contents. -/
theorem process_target_requires_single_name (refs : List String) (node : DNode)
    (htag : node.tagname = "target") (hlen : node.attrs.names.length ≠ 1) :
    process_target refs node = .error (.assertionError "len(names) == 1") := by
  unfold process_target
  simp [htag, hlen]

/-- Witness for claim C9: a target with no names and one with two names
both fail the assertion. -/
theorem process_target_requires_single_name_witness :
    process_target [] (.elem "target" {} []) =
      .error (.assertionError "len(names) == 1") ∧
    process_target ["a", "b"] (.elem "target" { names := ["a", "b"] } []) =
      .error (.assertionError "len(names) == 1") :=
  ⟨process_target_requires_single_name [] (.elem "target" {} []) rfl (by decide),
   process_target_requires_single_name ["a", "b"]
     (.elem "target" { names := ["a", "b"] } []) rfl (by decide)⟩

/-- Claim C3: a successfully processed target carries only names whose
lower-casing is already in the registry; a single-name target whose
lower-cased name is absent raises the fatal un-referenced-target error;
and rendering a named reference records its lower-cased name. -/
theorem target_names_resolve_in_registry :
    (∀ (refs : List String) (node : DNode), process_target refs node = .ok () →
      ∀ nm ∈ node.attrs.names, pyLower nm ∈ refs) ∧
    (∀ (refs : List String) (node : DNode) (nm : String), node.tagname = "target" →
      node.attrs.names = [nm] → pyLower nm ∉ refs →
      process_target refs node =
        .error (.valueError ("Found un-referenced target block " ++ nm))) ∧
    (∀ (node : DNode) (refs : List String) (nm : String) (out : String × Option String)
      (refs' : List String), node.attrs.name = some nm →
      process_reference node refs = .ok (out, refs') → pyLower nm ∈ refs') := by
  refine ⟨fun refs node h nm hnm => ?_, fun refs node nm htag hnames hmem => ?_,
    fun node refs nm out refs' hname h => ?_⟩
  · unfold process_target at h
    split at h
    · exact absurd h (by simp)
    split at h
    · exact absurd h (by simp)
    split at h
    · exact absurd h (by simp)
    rename_i hlen hmem
    obtain ⟨x, hx⟩ := List.length_eq_one.mp (not_ne_iff.mp hlen)
    rw [hx] at hnm hmem
    simp only [List.mem_singleton] at hnm
    subst hnm
    simpa using hmem
  · unfold process_target
    simp [htag, hnames, hmem]
  · unfold process_reference at h
    split at h
    · exact absurd h (by simp)
    · rw [hname] at h
      simp only [Except.ok.injEq, Prod.mk.injEq] at h
      rw [← h.2]
      exact mem_setAdd _ _

/-- Witness for claim C3 at a concrete registry and nodes. -/
theorem target_names_resolve_in_registry_witness :
    (∀ nm ∈ (DNode.elem "target" { names := ["XLink"] } []).attrs.names,
      pyLower nm ∈ ["xlink"]) ∧
    process_target [] (.elem "target" { names := ["XLink"] } []) =
      .error (.valueError ("Found un-referenced target block " ++ "XLink")) ∧
    pyLower "XLink" ∈ ["xlink"] :=
  ⟨target_names_resolve_in_registry.1 ["xlink"]
     (.elem "target" { names := ["XLink"] } []) rfl,
   target_names_resolve_in_registry.2.1 [] (.elem "target" { names := ["XLink"] } [])
     "XLink" rfl rfl (by decide),
   target_names_resolve_in_registry.2.2
     (.elem "reference" { name := some "XLink", refuri := some "http://x" } [.text "X"])
     [] "XLink" ("X", some "http://x") ["xlink"] rfl rfl⟩

/-- A doctest block with the given text, as docutils produces it. -/
def doctestNode (s : String) : DNode :=
  .elem "doctest_block" { xmlSpace := some "preserve" } [.text s]

/-- Claim C8: a block quote all of whose (one or more) children are
doctest blocks converts to exactly one VERBATIM element whose text is the
children's texts joined by a blank line. -/
theorem convert_block_quote_merges_doctests (bq : DNode) (refs : List String)
    (c : DNode) (cs : List DNode) (htag : bq.tagname = "block_quote")
    (hch : bq.children = c :: cs)
    (hall : ∀ p ∈ bq.children, p.tagname = "doctest_block") :
    convert_block_quote bq refs =
      .ok ((XElem.new "VERBATIM").setText
        (pyJoin "\n\n" (bq.children.map DNode.rawtext))) := by
  have hc : c.tagname = "doctest_block" := hall c (by rw [hch]; exact List.mem_cons_self c cs)
  unfold convert_block_quote
  rw [htag, hch]
  have hall' : ∀ p ∈ c :: cs, p.tagname = "doctest_block" := by
    rw [← hch]; exact hall
  simp only [hc, List.all_eq_true]
  have h1 : ∀ x ∈ cs, x.tagname = "doctest_block" := fun x hx => hall' x (List.mem_cons_of_mem c hx)
  simp [hc, h1, hch]
  exact h1

/-- Witness for claim C8: three doctest blocks a, b, c yield one VERBATIM
with text joined by blank lines. -/
theorem convert_block_quote_merges_doctests_witness :
    convert_block_quote
      (.elem "block_quote" {} [doctestNode "a", doctestNode "b", doctestNode "c"]) [] =
    .ok ((XElem.new "VERBATIM").setText "a\n\nb\n\nc") :=
  convert_block_quote_merges_doctests
    (.elem "block_quote" {} [doctestNode "a", doctestNode "b", doctestNode "c"]) []
    (doctestNode "a") [doctestNode "b", doctestNode "c"] rfl rfl
    (by intro p hp
        simp only [DNode.children, List.mem_cons, List.not_mem_nil, or_false] at hp
        rcases hp with h | h | h <;> subst h <;> rfl)

/-- A recorded `versionchanged` block for release 4.14.0. -/
def changed414 : DNode :=
  .elem "versionchanged" {} [.elem "paragraph" {} [.text "4.14.0 Some change."]]

/-- A recorded `versionadded` block for release 4.14.0. -/
def added414 : DNode :=
  .elem "versionadded" {} [.elem "paragraph" {} [.text "4.14.0 Some addition."]]

/-- Claim C4 (the code at the failing input): recording a Changed and an
Added entry for release 4.14 for the symbol `foo` — which is not in the
allow-list — and flushing raises no error at all: both entries are
emitted, titled `Changed in CIAO 4.14` and `Added in CIAO 4.14`.  The
gate inside the flush compares Added titles against `New in CIAO 4.14`,
a title the recorder never produces, so neither the fatal branch nor the
collapse can ever fire. -/
theorem flush_gate_never_fires_for_foo :
    (do
      let sv ← convert_versionwarning changed414 (some reset_stored_versions) []
      let sv ← convert_versionwarning added414 (some sv) []
      flush_stored_versions "foo" (some sv) :
        Except Err (Option XElem × VersionStore)).map
      (fun p => p.1.map fun vi => vi.children.map fun c => c.get "title") =
    .ok (some [some "Changed in CIAO 4.14", some "Added in CIAO 4.14"]) := rfl

theorem make_href_tag {n : DNode} {refs : List String} {h : XElem} {r : List String}
    (hm : make_href n refs = .ok (h, r)) : h.tag = "HREF" := by
  unfold make_href at hm
  cases hp : process_reference n refs with
  | error e => rw [hp] at hm; exact absurd hm (by simp [Bind.bind, Except.bind])
  | ok v =>
    obtain ⟨⟨txt, uri⟩, refs₂⟩ := v
    rw [hp] at hm
    simp only [Bind.bind, Except.bind, pure, Except.pure, Except.ok.injEq,
      Prod.mk.injEq] at hm
    cases uri with
    | none => rw [← hm.1, XElem.tag_setText]; rfl
    | some u => rw [← hm.1, XElem.tag_set, XElem.tag_setText]; rfl

theorem convert_para_aux_children_href (complex : Bool) (ns : List DNode) :
    ∀ (text : List String) (outText : Option String) (done : List XElem)
      (cur : Option XElem) (refs : List String) (ot : Option String)
      (ch : List XElem) (refs' : List String),
    (∀ c ∈ done, c.tag = "HREF") → (∀ h, cur = some h → h.tag = "HREF") →
    convert_para_aux complex ns text outText done cur refs = .ok (ot, ch, refs') →
    ∀ c ∈ ch, c.tag = "HREF" := by
  induction ns with
  | nil =>
    intro text outText done cur refs ot ch refs' hdone hcur hconv c hc
    unfold convert_para_aux at hconv
    cases cur with
    | none =>
      simp only [Except.ok.injEq, Prod.mk.injEq] at hconv
      exact hdone c (hconv.2.1 ▸ hc)
    | some h =>
      simp only [Except.ok.injEq, Prod.mk.injEq] at hconv
      rw [← hconv.2.1] at hc
      rcases List.mem_append.mp hc with hm | hm
      · exact hdone c hm
      · simp only [List.mem_singleton] at hm
        rw [hm, XElem.tag_setTail]
        exact hcur h rfl
  | cons n rest ih =>
    intro text outText done cur refs ot ch refs' hdone hcur hconv c hc
    unfold convert_para_aux at hconv
    split at hconv
    · -- target child
      cases hpt : process_target refs n with
      | error e =>
        rw [hpt] at hconv
        exact absurd hconv (by simp [Bind.bind, Except.bind])
      | ok u =>
        rw [hpt] at hconv
        simp only [Bind.bind, Except.bind] at hconv
        exact ih text outText done cur refs ot ch refs' hdone hcur hconv c hc
    split at hconv
    · -- reference child
      split at hconv
      · -- non-complex: flatten into text
        cases hp1 : process_reference n refs with
        | error e =>
          rw [hp1] at hconv
          exact absurd hconv (by simp [Bind.bind, Except.bind])
        | ok v1 =>
          rw [hp1] at hconv
          simp only [Bind.bind, Except.bind] at hconv
          cases hp2 : make_href_text n v1.2 with
          | error e =>
            rw [hp2] at hconv
            exact absurd hconv (by simp [Except.bind])
          | ok v2 =>
            rw [hp2] at hconv
            simp only [Except.bind] at hconv
            exact ih _ outText done cur _ ot ch refs' hdone hcur hconv c hc
      · -- complex: flush the run and open a new HREF
        cases hm : make_href n refs with
        | error e =>
          rw [hm] at hconv
          cases cur <;> exact absurd hconv (by simp [Bind.bind, Except.bind])
        | ok v =>
          obtain ⟨href, refs₂⟩ := v
          rw [hm] at hconv
          cases cur with
          | none =>
            simp only [Bind.bind, Except.bind] at hconv
            refine ih [] _ done (some href) refs₂ ot ch refs' hdone ?_ hconv c hc
            intro h hh
            cases hh
            exact make_href_tag hm
          | some hprev =>
            simp only [Bind.bind, Except.bind] at hconv
            refine ih [] outText (done ++ [hprev.setTail (pyJoin "\n" text)])
              (some href) refs₂ ot ch refs' ?_ ?_ hconv c hc
            · intro d hd
              rcases List.mem_append.mp hd with hmem | hmem
              · exact hdone d hmem
              · simp only [List.mem_singleton] at hmem
                rw [hmem, XElem.tag_setTail]
                exact hcur hprev rfl
            · intro h hh
              cases hh
              exact make_href_tag hm
    · -- ordinary child: rendered to text
      cases ha : astext refs n with
      | error e =>
        rw [ha] at hconv
        exact absurd hconv (by simp [Bind.bind, Except.bind])
      | ok t =>
        rw [ha] at hconv
        simp only [Bind.bind, Except.bind] at hconv
        exact ih _ outText done cur refs ot ch refs' hdone hcur hconv c hc

/-- A paragraph holding one embedded reference followed by plain text
(the Scenario E input). -/
def paraWithRef : DNode :=
  .elem "paragraph" {}
    [.elem "reference" { refuri := some "http://x" } [.text "X"], .text " more."]

/-- Claim C7: the paragraph converter emits one PARA whose children are
all HREF elements (text runs live in the PARA text and the HREF tails,
so the output is a flat alternation of text and hyperlinks); in
particular a paragraph of Reference(X, http://x) followed by the text
`more.` yields exactly one HREF child with that tail. -/
theorem convert_para_emits_flat_para :
    (∀ (para : DNode) (refs : List String) (out : XElem) (refs' : List String),
      convert_para para refs true = .ok (out, refs') →
      out.tag = "PARA" ∧ ∀ c ∈ out.children, c.tag = "HREF") ∧
    convert_para paraWithRef [] true =
      .ok (XElem.mk "PARA" [] (some "") none
        [XElem.mk "HREF" [("link", "http://x")] (some "X") (some " more.") []], []) := by
  refine ⟨fun para refs out refs' h => ?_, rfl⟩
  unfold convert_para at h
  cases ha : convert_para_aux true para.children [] none [] none refs with
  | error e => rw [ha] at h; exact absurd h (by simp [Bind.bind, Except.bind])
  | ok v =>
    obtain ⟨ot, ch, refs₂⟩ := v
    rw [ha] at h
    simp only [Bind.bind, Except.bind, pure, Except.pure, Except.ok.injEq,
      Prod.mk.injEq] at h
    constructor
    · rw [← h.1]; rfl
    · rw [← h.1]
      exact convert_para_aux_children_href true para.children [] none [] none refs
        ot ch refs₂ (by simp) (by simp) ha

/-- Witness for claim C7: the Scenario E paragraph converts successfully,
and the flatness theorem applies to its output. -/
theorem convert_para_emits_flat_para_witness :
    (XElem.mk "PARA" [] (some "") none
      [XElem.mk "HREF" [("link", "http://x")] (some "X") (some " more.") []]).tag =
        "PARA" ∧
    ∀ c ∈ (XElem.mk "PARA" [] (some "") none
      [XElem.mk "HREF" [("link", "http://x")] (some "X") (some " more.") []]).children,
      c.tag = "HREF" :=
  convert_para_emits_flat_para.1 paraWithRef []
    (XElem.mk "PARA" [] (some "") none
      [XElem.mk "HREF" [("link", "http://x")] (some "X") (some " more.") []]) []
    convert_para_emits_flat_para.2

/-- A rubric no extractor recognizes: it survives the whole battery. -/
def rubricOther : DNode := .elem "rubric" {} [.text "Other stuff"]

/-- Counterexample to claim C1 as stated: converting the one-node
document whose rubric no extractor consumes leaves a non-empty
remainder, yet `convert_docutils` raises no error — it returns the
unconsumed nodes (in place of an output document) with only a logged
warning. -/
theorem trailing_nodes_do_not_raise :
    convert_docutils id id "foo" [rubricOther] none none none none "ahelp"
      ⟨[], none⟩ =
    .ok (.trailing [rubricOther], ⟨[], some reset_stored_versions⟩) := rfl

/-- Claim C1 as amended: when the extractor battery leaves a non-empty
remainder, `convert_docutils` aborts the conversion and returns the
remainder itself instead of an output document; no exception is raised
(the source logs a warning where an assertion once stood). -/
theorem trailing_nodes_end_conversion (cleanupSig cet : String → String)
    (name : String) (doc : List DNode) (sig : Option String)
    (symbol : Option SymbolInfo) (metadata : Option (List (String × String)))
    (synonyms : Option (List String)) (dtd : String) (st : ConvState)
    (seg : SegmentOut) (st' : ConvState)
    (hdtd : dtd ∈ ["ahelp", "sxml"]) (hsyn : synonyms ≠ some [])
    (hseg : segment_document cleanupSig cet name sig symbol synonyms doc
      { st with store_versions := some reset_stored_versions } = .ok (seg, st'))
    (hne : seg.nodes ≠ []) :
    convert_docutils cleanupSig cet name doc sig symbol metadata synonyms dtd st =
      .ok (.trailing seg.nodes, st') := by
  unfold convert_docutils
  rw [if_neg (not_not_intro hdtd), if_neg hsyn]
  show (do
    let (seg, st) ← segment_document cleanupSig cet name sig symbol synonyms doc
      { st with store_versions := some reset_stored_versions }
    if !seg.nodes.isEmpty then
      pure (ConvResult.trailing seg.nodes, st)
    else _ : Except Err (ConvResult × ConvState)) = _
  rw [hseg]
  simp only [Bind.bind, Except.bind]
  have h3 : seg.nodes.isEmpty = false := by
    cases hn : seg.nodes with
    | nil => exact absurd hn hne
    | cons a l => rfl
  rw [h3]
  rfl

/-- Witness for claim C1 as amended, at the one-rubric document. -/
theorem trailing_nodes_end_conversion_witness :
    convert_docutils id id "foo" [rubricOther] none none none none "ahelp"
      ⟨[], none⟩ =
    .ok (.trailing [rubricOther], ⟨[], some reset_stored_versions⟩) :=
  trailing_nodes_end_conversion id id "foo" [rubricOther] none none none none
    "ahelp" ⟨[], none⟩
    ⟨none, none, none, none, none, none, none, none, none, none, none, [rubricOther]⟩
    ⟨[], some reset_stored_versions⟩ (by decide) (by decide) rfl
    (List.cons_ne_nil _ _)

/-! ## Reference-registry monotonicity

No code path ever removes a name from the reference registry: every
state-returning function only grows it. -/

theorem subset_of_eq {a b : List String} (h : a = b) : a ⊆ b :=
  h ▸ List.Subset.refl a

theorem bind_ok {α β : Type} {e : Except Err α} {f : α → Except Err β} {b : β}
    (h : Except.bind e f = .ok b) : ∃ a, e = .ok a ∧ f a = .ok b := by
  cases e with
  | error err => simp [Except.bind] at h
  | ok a => exact ⟨a, rfl, by simpa [Except.bind] using h⟩

theorem process_reference_mono {n : DNode} {refs : List String}
    {out : String × Option String} {refs' : List String}
    (h : process_reference n refs = .ok (out, refs')) : refs ⊆ refs' := by
  unfold process_reference at h
  split at h
  · exact absurd h (by simp)
  · simp only [Except.ok.injEq, Prod.mk.injEq] at h
    cases hn : n.attrs.name with
    | none => rw [hn] at h; intro x hx; rw [← h.2]; exact hx
    | some nm => rw [hn] at h; intro x hx; rw [← h.2]; exact mem_setAdd_of_mem _ hx

theorem make_href_mono {n : DNode} {refs : List String} {h : XElem}
    {refs' : List String} (hm : make_href n refs = .ok (h, refs')) :
    refs ⊆ refs' := by
  unfold make_href at hm
  cases hp : process_reference n refs with
  | error e => rw [hp] at hm; exact absurd hm (by simp [Bind.bind, Except.bind])
  | ok v =>
    obtain ⟨⟨txt, uri⟩, refs₂⟩ := v
    rw [hp] at hm
    simp only [Bind.bind, Except.bind, pure, Except.pure, Except.ok.injEq,
      Prod.mk.injEq] at hm
    exact hm.2 ▸ process_reference_mono hp

theorem make_href_text_mono {n : DNode} {refs : List String} {t : String}
    {refs' : List String} (hm : make_href_text n refs = .ok (t, refs')) :
    refs ⊆ refs' := by
  unfold make_href_text at hm
  cases hp : process_reference n refs with
  | error e => rw [hp] at hm; exact absurd hm (by simp [Bind.bind, Except.bind])
  | ok v =>
    obtain ⟨⟨txt, uri⟩, refs₂⟩ := v
    rw [hp] at hm
    simp only [Bind.bind, Except.bind, pure, Except.pure, Except.ok.injEq,
      Prod.mk.injEq] at hm
    exact hm.2 ▸ process_reference_mono hp

theorem convert_para_aux_mono (complex : Bool) (ns : List DNode) :
    ∀ (text : List String) (outText : Option String) (done : List XElem)
      (cur : Option XElem) (refs : List String) (ot : Option String)
      (ch : List XElem) (refs' : List String),
    convert_para_aux complex ns text outText done cur refs = .ok (ot, ch, refs') →
    refs ⊆ refs' := by
  induction ns with
  | nil =>
    intro text outText done cur refs ot ch refs' hconv
    unfold convert_para_aux at hconv
    cases cur <;> simp only [Except.ok.injEq, Prod.mk.injEq] at hconv <;>
      exact subset_of_eq hconv.2.2
  | cons n rest ih =>
    intro text outText done cur refs ot ch refs' hconv
    unfold convert_para_aux at hconv
    split at hconv
    · cases hpt : process_target refs n with
      | error e =>
        rw [hpt] at hconv
        exact absurd hconv (by simp [Bind.bind, Except.bind])
      | ok u =>
        rw [hpt] at hconv
        simp only [Bind.bind, Except.bind] at hconv
        exact ih text outText done cur refs ot ch refs' hconv
    split at hconv
    · split at hconv
      · cases hp1 : process_reference n refs with
        | error e =>
          rw [hp1] at hconv
          exact absurd hconv (by simp [Bind.bind, Except.bind])
        | ok v1 =>
          rw [hp1] at hconv
          simp only [Bind.bind, Except.bind] at hconv
          cases hp2 : make_href_text n v1.2 with
          | error e =>
            rw [hp2] at hconv
            exact absurd hconv (by simp [Except.bind])
          | ok v2 =>
            rw [hp2] at hconv
            simp only [Except.bind] at hconv
            exact (process_reference_mono hp1).trans
              ((make_href_text_mono hp2).trans
                (ih _ outText done cur _ ot ch refs' hconv))
      · cases hm : make_href n refs with
        | error e =>
          rw [hm] at hconv
          cases cur <;> exact absurd hconv (by simp [Bind.bind, Except.bind])
        | ok v =>
          obtain ⟨href, refs₂⟩ := v
          rw [hm] at hconv
          cases cur with
          | none =>
            simp only [Bind.bind, Except.bind] at hconv
            exact (make_href_mono hm).trans
              (ih [] _ done (some href) refs₂ ot ch refs' hconv)
          | some hprev =>
            simp only [Bind.bind, Except.bind] at hconv
            exact (make_href_mono hm).trans
              (ih [] outText _ (some href) refs₂ ot ch refs' hconv)
    · cases ha : astext refs n with
      | error e =>
        rw [ha] at hconv
        exact absurd hconv (by simp [Bind.bind, Except.bind])
      | ok t =>
        rw [ha] at hconv
        simp only [Bind.bind, Except.bind] at hconv
        exact ih _ outText done cur refs ot ch refs' hconv

theorem convert_para_mono {para : DNode} {refs : List String} {complex : Bool}
    {out : XElem} {refs' : List String}
    (h : convert_para para refs complex = .ok (out, refs')) : refs ⊆ refs' := by
  unfold convert_para at h
  cases ha : convert_para_aux complex para.children [] none [] none refs with
  | error e => rw [ha] at h; exact absurd h (by simp [Bind.bind, Except.bind])
  | ok v =>
    obtain ⟨ot, ch, refs₂⟩ := v
    rw [ha] at h
    simp only [Bind.bind, Except.bind, pure, Except.pure, Except.ok.injEq,
      Prod.mk.injEq] at h
    exact h.2 ▸
      convert_para_aux_mono complex para.children [] none [] none refs ot ch refs₂ ha

theorem convert_note_mono {note : DNode} {refs : List String} {out : Option XElem}
    {refs' : List String} (h : convert_note note refs = .ok (out, refs')) :
    refs ⊆ refs' := by
  unfold convert_note at h
  split at h
  · exact absurd h (by simp)
  split at h
  · exact absurd h (by simp)
  split at h
  · exact absurd h (by simp)
  · simp only [Bind.bind, Except.bind] at h
    rcases hch : note.children with _ | ⟨p, ps⟩ <;> rw [hch] at h
    · exact absurd h (by simp [throw, throwThe, MonadExceptOf.throw])
    rcases ps with _ | ⟨p1, ps1⟩
    · dsimp only at h
      cases hc : convert_para p refs with
      | error e => rw [hc] at h; exact absurd h (by simp)
      | ok v =>
        rw [hc] at h
        obtain ⟨o, r⟩ := v
        simp only [pure, Except.pure] at h
        split at h <;> simp only [Except.ok.injEq, Prod.mk.injEq] at h <;>
          exact h.2 ▸ convert_para_mono hc
    · dsimp only at h
      cases ha : astext refs p with
      | error e => rw [ha] at h; exact absurd h (by simp)
      | ok ttl =>
        rw [ha] at h
        simp only [Except.bind] at h
        cases hc : convert_para p1 refs with
        | error e => rw [hc] at h; exact absurd h (by simp)
        | ok v =>
          rw [hc] at h
          obtain ⟨o, r⟩ := v
          simp only [pure, Except.pure] at h
          split at h <;> simp only [Except.ok.injEq, Prod.mk.injEq] at h <;>
            exact h.2 ▸ convert_para_mono hc

theorem convert_warning_mono {note : DNode} {refs : List String} {out : XElem}
    {refs' : List String} (h : convert_warning note refs = .ok (out, refs')) :
    refs ⊆ refs' := by
  unfold convert_warning at h
  split at h
  · exact absurd h (by simp)
  split at h
  · exact absurd h (by simp)
  split at h
  · exact absurd h (by simp)
  split at h
  · rename_i p heq
    cases hc : convert_para p refs with
    | error e => rw [hc] at h; exact absurd h (by simp [Bind.bind, Except.bind])
    | ok v =>
      rw [hc] at h
      obtain ⟨o, r⟩ := v
      simp only [Bind.bind, Except.bind, pure, Except.pure, Except.ok.injEq,
        Prod.mk.injEq] at h
      exact h.2 ▸ convert_para_mono hc
  · exact absurd h (by simp)

theorem convert_field_body_mono {fbody : DNode} {refs : List String} {out : XElem}
    {refs' : List String} (h : convert_field_body fbody refs = .ok (out, refs')) :
    refs ⊆ refs' := by
  unfold convert_field_body at h
  split at h
  · exact absurd h (by simp)
  split at h
  · exact absurd h (by simp)
  split at h
  · simp only [Except.ok.injEq, Prod.mk.injEq] at h
    exact subset_of_eq h.2
  · exact convert_para_mono h
  · exact absurd h (by simp)

theorem make_para_blocks_tail_mono {para : DNode} {st : ConvState}
    {out : List XElem} {st' : ConvState}
    (h : make_para_blocks_tail para st = .ok (out, st')) :
    st.references ⊆ st'.references := by
  unfold make_para_blocks_tail at h
  split at h
  · -- table
    cases hc : convert_table para with
    | error e => rw [hc] at h; exact absurd h (by simp [Bind.bind, Except.bind])
    | ok o =>
      rw [hc] at h
      simp only [Bind.bind, Except.bind, pure, Except.pure, Except.ok.injEq,
        Prod.mk.injEq] at h
      exact subset_of_eq (congrArg ConvState.references h.2)
  split at h
  · -- note
    cases hc : convert_note para st.references with
    | error e => rw [hc] at h; exact absurd h (by simp [Bind.bind, Except.bind])
    | ok v =>
      rw [hc] at h
      obtain ⟨o, r⟩ := v
      simp only [Bind.bind, Except.bind] at h
      have hsub := convert_note_mono hc
      cases o <;>
        simp only [pure, Except.pure, Except.ok.injEq, Prod.mk.injEq] at h <;>
        rw [← h.2] <;> exact hsub
  split at h
  · -- warning
    cases hc : convert_warning para st.references with
    | error e => rw [hc] at h; exact absurd h (by simp [Bind.bind, Except.bind])
    | ok v =>
      rw [hc] at h
      obtain ⟨o, r⟩ := v
      simp only [Bind.bind, Except.bind, pure, Except.pure, Except.ok.injEq,
        Prod.mk.injEq] at h
      rw [← h.2]
      exact convert_warning_mono hc
  split at h
  · -- versionadded / versionchanged
    cases hc : convert_versionwarning para st.store_versions st.references with
    | error e => rw [hc] at h; exact absurd h (by simp [Bind.bind, Except.bind])
    | ok sv =>
      rw [hc] at h
      simp only [Bind.bind, Except.bind, pure, Except.pure, Except.ok.injEq,
        Prod.mk.injEq] at h
      rw [← h.2]
      exact fun _ hx => hx
  split at h
  · -- comment
    cases hc : convert_comment_versionwarning para st.store_versions st.references with
    | error e => rw [hc] at h; exact absurd h (by simp [Bind.bind, Except.bind])
    | ok sv =>
      rw [hc] at h
      simp only [Bind.bind, Except.bind, pure, Except.pure, Except.ok.injEq,
        Prod.mk.injEq] at h
      rw [← h.2]
      exact fun _ hx => hx
  split at h
  · -- field_body
    cases hc : convert_field_body para st.references with
    | error e => rw [hc] at h; exact absurd h (by simp [Bind.bind, Except.bind])
    | ok v =>
      rw [hc] at h
      obtain ⟨o, r⟩ := v
      simp only [Bind.bind, Except.bind, pure, Except.pure, Except.ok.injEq,
        Prod.mk.injEq] at h
      rw [← h.2]
      exact convert_field_body_mono hc
  split at h
  · -- literal_block
    cases hc : convert_literal_block para with
    | error e => rw [hc] at h; exact absurd h (by simp [Bind.bind, Except.bind])
    | ok o =>
      rw [hc] at h
      simp only [Bind.bind, Except.bind, pure, Except.pure, Except.ok.injEq,
        Prod.mk.injEq] at h
      exact subset_of_eq (congrArg ConvState.references h.2)
  · exact absurd h (by simp)

theorem make_para_blocks_mono {para : DNode} {st : ConvState} {out : List XElem}
    {st' : ConvState} (h : make_para_blocks para st = .ok (out, st')) :
    st.references ⊆ st'.references := by
  unfold make_para_blocks at h
  split at h
  · -- system_message
    simp only [Except.ok.injEq, Prod.mk.injEq] at h
    exact subset_of_eq (congrArg ConvState.references h.2)
  split at h
  · -- paragraph
    cases hc : convert_para para st.references with
    | error e => rw [hc] at h; exact absurd h (by simp [Bind.bind, Except.bind])
    | ok v =>
      rw [hc] at h
      obtain ⟨o, r⟩ := v
      simp only [Bind.bind, Except.bind, pure, Except.pure, Except.ok.injEq,
        Prod.mk.injEq] at h
      rw [← h.2]
      exact convert_para_mono hc
  split at h
  · -- doctest_block
    cases hc : convert_doctest_block para with
    | error e => rw [hc] at h; exact absurd h (by simp [Bind.bind, Except.bind])
    | ok o =>
      rw [hc] at h
      simp only [Bind.bind, Except.bind, pure, Except.pure, Except.ok.injEq,
        Prod.mk.injEq] at h
      exact subset_of_eq (congrArg ConvState.references h.2)
  split at h
  · -- block_quote
    cases hc : convert_block_quote para st.references with
    | error e => rw [hc] at h; exact absurd h (by simp [Bind.bind, Except.bind])
    | ok o =>
      rw [hc] at h
      simp only [Bind.bind, Except.bind, pure, Except.pure, Except.ok.injEq,
        Prod.mk.injEq] at h
      exact subset_of_eq (congrArg ConvState.references h.2)
  split at h
  · -- enumerated_list
    cases hc : convert_enumerated_list para st.references with
    | error e => rw [hc] at h; exact absurd h (by simp [Bind.bind, Except.bind])
    | ok o =>
      rw [hc] at h
      simp only [Bind.bind, Except.bind, pure, Except.pure, Except.ok.injEq,
        Prod.mk.injEq] at h
      exact subset_of_eq (congrArg ConvState.references h.2)
  split at h
  · -- definition_list
    cases hc : convert_definition_list para st.references with
    | error e => rw [hc] at h; exact absurd h (by simp [Bind.bind, Except.bind])
    | ok o =>
      rw [hc] at h
      simp only [Bind.bind, Except.bind, pure, Except.pure, Except.ok.injEq,
        Prod.mk.injEq] at h
      exact subset_of_eq (congrArg ConvState.references h.2)
  split at h
  · -- definition
    cases hc : convert_definition para st.references with
    | error e => rw [hc] at h; exact absurd h (by simp [Bind.bind, Except.bind])
    | ok o =>
      rw [hc] at h
      simp only [Bind.bind, Except.bind, pure, Except.pure, Except.ok.injEq,
        Prod.mk.injEq] at h
      exact subset_of_eq (congrArg ConvState.references h.2)
  split at h
  · -- bullet_list
    cases hc : convert_bullet_list para st.references with
    | error e => rw [hc] at h; exact absurd h (by simp [Bind.bind, Except.bind])
    | ok o =>
      rw [hc] at h
      simp only [Bind.bind, Except.bind, pure, Except.pure, Except.ok.injEq,
        Prod.mk.injEq] at h
      exact subset_of_eq (congrArg ConvState.references h.2)
  · exact make_para_blocks_tail_mono h

theorem find_desc_blocks_mono (pnodes : List DNode) :
    ∀ (st : ConvState) (out : List XElem) (st' : ConvState),
    find_desc_blocks st pnodes = .ok (out, st') →
    st.references ⊆ st'.references := by
  induction pnodes with
  | nil =>
    intro st out st' h
    unfold find_desc_blocks at h
    simp only [Except.ok.injEq, Prod.mk.injEq] at h
    exact subset_of_eq (congrArg ConvState.references h.2)
  | cons p ps ih =>
    intro st out st' h
    unfold find_desc_blocks at h
    cases hm : make_para_blocks p st with
    | error e => rw [hm] at h; exact absurd h (by simp [Bind.bind, Except.bind])
    | ok v =>
      obtain ⟨bs, st₁⟩ := v
      rw [hm] at h
      simp only [Bind.bind, Except.bind] at h
      cases hr : find_desc_blocks st₁ ps with
      | error e => rw [hr] at h; exact absurd h (by simp)
      | ok w =>
        obtain ⟨more, st₂⟩ := w
        rw [hr] at h
        simp only [pure, Except.pure, Except.ok.injEq, Prod.mk.injEq] at h
        rw [← h.2]
        exact (make_para_blocks_mono hm).trans (ih st₁ more st₂ hr)

theorem find_desc_mono {indoc : List DNode} {synonyms : Option (List String)}
    {st : ConvState} {out : Option XElem} {rest : List DNode} {st' : ConvState}
    (h : find_desc indoc synonyms st = .ok (out, rest, st')) :
    st.references ⊆ st'.references := by
  unfold find_desc at h
  dsimp only [splitWhile] at h
  split at h
  · simp only [Except.ok.injEq, Prod.mk.injEq] at h
    exact subset_of_eq (congrArg ConvState.references h.2.2)
  · simp only [Bind.bind] at h
    obtain ⟨syn, hsyn, h⟩ := bind_ok h
    obtain ⟨⟨blocks, st₁⟩, hb, h⟩ := bind_ok h
    simp only [pure, Except.pure, Except.ok.injEq, Prod.mk.injEq] at h
    exact h.2.2 ▸ find_desc_blocks_mono _ st blocks st₁ hb

theorem find_notes_blocks_mono (lnodes : List DNode) :
    ∀ (st : ConvState) (out : List XElem) (st' : ConvState),
    find_notes_blocks st lnodes = .ok (out, st') →
    st.references ⊆ st'.references := by
  induction lnodes with
  | nil =>
    intro st out st' h
    unfold find_notes_blocks at h
    simp only [Except.ok.injEq, Prod.mk.injEq] at h
    exact subset_of_eq (congrArg ConvState.references h.2)
  | cons p ps ih =>
    intro st out st' h
    unfold find_notes_blocks at h
    split at h
    · exact absurd h (by simp)
    · simp only [Bind.bind] at h
      obtain ⟨⟨bs, st₁⟩, hm, h⟩ := bind_ok h
      obtain ⟨⟨more, st₂⟩, hr, h⟩ := bind_ok h
      simp only [pure, Except.pure, Except.ok.injEq, Prod.mk.injEq] at h
      exact h.2 ▸ (make_para_blocks_mono hm).trans (ih st₁ more st₂ hr)

theorem find_notes_mono {indoc : List DNode} {st : ConvState} {out : Option XElem}
    {rest : List DNode} {st' : ConvState}
    (h : find_notes indoc st = .ok (out, rest, st')) :
    st.references ⊆ st'.references := by
  unfold find_notes at h
  rcases indoc with _ | ⟨node, after⟩ <;> dsimp only at h
  · simp only [Except.ok.injEq, Prod.mk.injEq] at h
    exact subset_of_eq (congrArg ConvState.references h.2.2)
  · split at h
    · simp only [Except.ok.injEq, Prod.mk.injEq] at h
      exact subset_of_eq (congrArg ConvState.references h.2.2)
    split at h
    · simp only [Except.ok.injEq, Prod.mk.injEq] at h
      exact subset_of_eq (congrArg ConvState.references h.2.2)
    split at h
    · simp only [Except.ok.injEq, Prod.mk.injEq] at h
      exact subset_of_eq (congrArg ConvState.references h.2.2)
    split at h
    · exact absurd h (by simp)
    · simp only [Bind.bind] at h
      obtain ⟨⟨blocks, st₁⟩, hb, h⟩ := bind_ok h
      split at h
      · exact absurd h (by simp [throw, throwThe, MonadExceptOf.throw])
      · simp only [pure, Except.pure, Except.ok.injEq, Prod.mk.injEq] at h
        exact h.2.2 ▸ find_notes_blocks_mono _ st blocks st₁ hb

theorem extract_params_type_cell_mono {ptype : Option (Option DNode)}
    {refs : List String} {txt : Option String} {refs' : List String}
    (h : extract_params_type_cell ptype refs = .ok (txt, refs')) :
    refs ⊆ refs' := by
  unfold extract_params_type_cell at h
  rcases ptype with _ | t
  · simp only [Except.ok.injEq, Prod.mk.injEq] at h
    exact subset_of_eq h.2
  rcases t with _ | d
  · exact absurd h (by simp)
  · simp only [Bind.bind] at h
    obtain ⟨⟨conv, refs₁⟩, hc, h⟩ := bind_ok h
    simp only [pure, Except.pure, Except.ok.injEq, Prod.mk.injEq] at h
    exact h.2 ▸ convert_field_body_mono hc

theorem extract_params_desc_cell_mono {par : ParamInfo} {refs : List String}
    {txt : Option String} {refs' : List String}
    (h : extract_params_desc_cell par refs = .ok (txt, refs')) :
    refs ⊆ refs' := by
  unfold extract_params_desc_cell at h
  rcases hp : par.param with _ | b <;> rw [hp] at h
  · rcases hi : par.ivar with _ | b <;> rw [hi] at h
    · simp only [Except.ok.injEq, Prod.mk.injEq] at h
      exact subset_of_eq h.2
    rcases b with _ | d
    · exact absurd h (by simp)
    · simp only [Bind.bind] at h
      obtain ⟨⟨blk, refs₁⟩, hc, h⟩ := bind_ok h
      simp only [pure, Except.pure, Except.ok.injEq, Prod.mk.injEq] at h
      exact h.2 ▸ convert_field_body_mono hc
  · rcases b with _ | d
    · exact absurd h (by simp)
    · simp only [Bind.bind] at h
      obtain ⟨⟨blk, refs₁⟩, hc, h⟩ := bind_ok h
      simp only [pure, Except.pure, Except.ok.injEq, Prod.mk.injEq] at h
      exact h.2 ▸ convert_field_body_mono hc

theorem extract_params_row_mono {hasType : Bool} {par : ParamInfo}
    {refs : List String} {row : XElem} {refs' : List String}
    (h : extract_params_row hasType par refs = .ok (row, refs')) :
    refs ⊆ refs' := by
  unfold extract_params_row at h
  simp only [Bind.bind] at h
  split at h
  · obtain ⟨⟨t, refsA⟩, hA, h⟩ := bind_ok h
    simp only [pure, Except.pure, Except.bind] at h
    obtain ⟨⟨txt, refs₂⟩, h2, h⟩ := bind_ok h
    simp only [pure, Except.pure, Except.ok.injEq, Prod.mk.injEq] at h
    exact h.2 ▸ (extract_params_type_cell_mono hA).trans
      (extract_params_desc_cell_mono h2)
  · simp only [pure, Except.pure, Except.bind] at h
    obtain ⟨⟨txt, refs₂⟩, h2, h⟩ := bind_ok h
    simp only [pure, Except.pure, Except.ok.injEq, Prod.mk.injEq] at h
    exact h.2 ▸ extract_params_desc_cell_mono h2

theorem extract_params_rows_mono (parinfo : List ParamInfo) :
    ∀ (hasType : Bool) (refs : List String) (rows : List XElem)
      (refs' : List String),
    extract_params_rows hasType refs parinfo = .ok (rows, refs') →
    refs ⊆ refs' := by
  induction parinfo with
  | nil =>
    intro hasType refs rows refs' h
    unfold extract_params_rows at h
    simp only [Except.ok.injEq, Prod.mk.injEq] at h
    exact subset_of_eq h.2
  | cons p ps ih =>
    intro hasType refs rows refs' h
    unfold extract_params_rows at h
    simp only [Bind.bind] at h
    obtain ⟨⟨row, refs₁⟩, h1, h⟩ := bind_ok h
    obtain ⟨⟨rest, refs₂⟩, h2, h⟩ := bind_ok h
    simp only [pure, Except.pure, Except.ok.injEq, Prod.mk.injEq] at h
    exact h.2 ▸ (extract_params_row_mono h1).trans (ih hasType refs₁ rest refs₂ h2)

theorem extract_params_return_value_mono {rvals : List (Option DNode)}
    {refs : List String} {rv : Option XElem} {refs' : List String}
    (h : extract_params_return_value rvals refs = .ok (rv, refs')) :
    refs ⊆ refs' := by
  rcases rvals with _ | ⟨r0, rs⟩
  · unfold extract_params_return_value at h
    simp only [Except.ok.injEq, Prod.mk.injEq] at h
    exact subset_of_eq h.2
  rcases r0 with _ | r0
  · exact absurd h (by simp [extract_params_return_value])
  · simp only [extract_params_return_value] at h
    split at h
    · exact absurd h (by simp)
    · split at h
      · exact absurd h (by simp)
      · simp only [Bind.bind] at h
        obtain ⟨t, ht, h⟩ := bind_ok h
        split at h
        · cases h
          exact fun _ hx => hx
        · obtain ⟨⟨el, refs₁⟩, hc, h⟩ := bind_ok h
          simp only [pure, Except.pure, Except.ok.injEq, Prod.mk.injEq] at h
          exact h.2 ▸ convert_field_body_mono hc

theorem extract_params_mono {fieldinfo : Option FieldInfo} {refs : List String}
    {out : Option XElem} {refs' : List String}
    (h : extract_params fieldinfo refs = .ok (out, refs')) : refs ⊆ refs' := by
  unfold extract_params at h
  rcases fieldinfo with _ | fi
  · simp only [Except.ok.injEq, Prod.mk.injEq] at h
    exact subset_of_eq h.2
  · dsimp only at h
    split at h
    · split at h
      · exact absurd h (by simp)
      · simp only [pure, Except.pure, Except.ok.injEq, Prod.mk.injEq] at h
        exact subset_of_eq h.2
    · simp only [Bind.bind] at h
      split at h
      · exact absurd h (by simp)
      · obtain ⟨⟨rv, refs₁⟩, hrv, h⟩ := bind_ok h
        have s1 : refs ⊆ refs₁ := extract_params_return_value_mono hrv
        split at h
        · simp only [pure, Except.pure, Except.ok.injEq, Prod.mk.injEq] at h
          exact h.2 ▸ s1
        · split at h
          · obtain ⟨⟨rows, refsB⟩, hrows, h⟩ := bind_ok h
            simp only [pure, Except.pure, Except.bind] at h
            have s2 : refs₁ ⊆ refsB :=
              extract_params_rows_mono _ _ refs₁ rows refsB hrows
            rcases rv with _ | rvx <;>
              simp only [pure, Except.pure, Except.ok.injEq, Prod.mk.injEq] at h <;>
              exact h.2 ▸ s1.trans s2
          · simp only [pure, Except.pure, Except.bind] at h
            rcases rv with _ | rvx <;>
              simp only [pure, Except.pure, Except.ok.injEq, Prod.mk.injEq] at h <;>
              exact h.2 ▸ s1.trans (List.Subset.refl _)

theorem find_examples_loop_mono (cet : String → String) (lnodes : List DNode) :
    ∀ (st : ConvState) (out : List (List XElem)) (descOpen : Bool)
      (res : List (List XElem)) (st' : ConvState),
    find_examples_loop cet st out descOpen lnodes = .ok (res, st') →
    st.references ⊆ st'.references := by
  induction lnodes with
  | nil =>
    intro st out descOpen res st' h
    unfold find_examples_loop at h
    simp only [Except.ok.injEq, Prod.mk.injEq] at h
    exact subset_of_eq (congrArg ConvState.references h.2)
  | cons para rest ih =>
    intro st out descOpen res st' h
    unfold find_examples_loop at h
    dsimp only at h
    split at h
    · exact absurd h (by simp)
    · simp only [Bind.bind] at h
      obtain ⟨out₁, hout, h⟩ := bind_ok h
      obtain ⟨⟨blocks, st₁⟩, hm, h⟩ := bind_ok h
      obtain ⟨blocks₂, hb, h⟩ := bind_ok h
      exact (make_para_blocks_mono hm).trans (ih st₁ _ _ res st' h)

theorem find_examples_mono {cet : String → String} {indoc : List DNode}
    {st : ConvState} {out : Option XElem} {rest : List DNode} {st' : ConvState}
    (h : find_examples cet indoc st = .ok (out, rest, st')) :
    st.references ⊆ st'.references := by
  unfold find_examples at h
  rcases indoc with _ | ⟨node, after⟩ <;> dsimp only at h
  · simp only [Except.ok.injEq, Prod.mk.injEq] at h
    exact subset_of_eq (congrArg ConvState.references h.2.2)
  · split at h
    · simp only [Except.ok.injEq, Prod.mk.injEq] at h
      exact subset_of_eq (congrArg ConvState.references h.2.2)
    split at h
    · simp only [Except.ok.injEq, Prod.mk.injEq] at h
      exact subset_of_eq (congrArg ConvState.references h.2.2)
    · simp only [Bind.bind] at h
      obtain ⟨⟨outs, st₁⟩, hl, h⟩ := bind_ok h
      simp only [pure, Except.pure, Except.ok.injEq, Prod.mk.injEq] at h
      exact h.2.2 ▸ find_examples_loop_mono cet _ st [] false outs st₁ hl

theorem segment_document_mono {cleanupSig cet : String → String} {name : String}
    {sig : Option String} {symbol : Option SymbolInfo}
    {synonyms : Option (List String)} {doc : List DNode} {st : ConvState}
    {seg : SegmentOut} {st' : ConvState}
    (h : segment_document cleanupSig cet name sig symbol synonyms doc st =
      .ok (seg, st')) :
    st.references ⊆ st'.references := by
  unfold segment_document at h
  simp only [Bind.bind] at h
  obtain ⟨⟨syn0, nodes1⟩, h1, h⟩ := bind_ok h
  obtain ⟨⟨synopsis, refkeywords, nodes2⟩, h2, h⟩ := bind_ok h
  obtain ⟨⟨desc, nodes3, st3⟩, h3, h⟩ := bind_ok h
  have s3 : st.references ⊆ st3.references := find_desc_mono h3
  obtain ⟨syn1, h4, h⟩ := bind_ok h
  obtain ⟨⟨fieldlist1, nodes4⟩, h5, h⟩ := bind_ok h
  obtain ⟨⟨warnings, nodes5⟩, h6, h⟩ := bind_ok h
  obtain ⟨⟨seealso, nodes6⟩, h7, h⟩ := bind_ok h
  obtain ⟨⟨fieldlist2, nodes7⟩, h8, h⟩ := bind_ok h
  obtain ⟨⟨params, refs2⟩, h9, h⟩ := bind_ok h
  have s9 : st3.references ⊆ refs2 := extract_params_mono h9
  obtain ⟨⟨seealso2, nodes8⟩, h10, h⟩ := bind_ok h
  obtain ⟨⟨notes, nodes9, st10⟩, h11, h⟩ := bind_ok h
  have s11 : refs2 ⊆ st10.references := find_notes_mono h11
  obtain ⟨⟨notes2, nodes10, st11⟩, h12, h⟩ := bind_ok h
  have s12 : st10.references ⊆ st11.references := find_notes_mono h12
  obtain ⟨⟨refs, nodes11⟩, h13, h⟩ := bind_ok h
  obtain ⟨⟨examples, nodes12, st12⟩, h14, h⟩ := bind_ok h
  have s14 : st11.references ⊆ st12.references := find_examples_mono h14
  obtain ⟨⟨refsB, nodes13⟩, h15, h⟩ := bind_ok h
  simp only [pure, Except.pure, Except.ok.injEq, Prod.mk.injEq] at h
  have hfin : st12.references ⊆ st'.references := subset_of_eq (congrArg ConvState.references h.2)
  exact s3.trans (s9.trans (s11.trans (s12.trans (s14.trans hfin))))

theorem convert_docutils_refs_mono {cleanupSig cet : String → String}
    {name : String} {doc : List DNode} {sig : Option String}
    {symbol : Option SymbolInfo} {metadata : Option (List (String × String))}
    {synonyms : Option (List String)} {dtd : String} {st : ConvState}
    {res : ConvResult} {st' : ConvState}
    (h : convert_docutils cleanupSig cet name doc sig symbol metadata synonyms
      dtd st = .ok (res, st')) :
    st.references ⊆ st'.references := by
  unfold convert_docutils at h
  split at h
  · exact absurd h (by simp)
  split at h
  · exact absurd h (by simp)
  simp only [Bind.bind] at h
  obtain ⟨⟨seg, st₁⟩, hseg, h⟩ := bind_ok h
  have s0 := segment_document_mono hseg
  have s1 : st.references ⊆ st₁.references := s0
  split at h
  · simp only [pure, Except.pure, Except.ok.injEq, Prod.mk.injEq] at h
    exact h.2 ▸ s1
  · rcases hcs : create_seealso name seg.seealso symbol with ⟨tags, dtags⟩
    rw [hcs] at h
    dsimp only at h
    obtain ⟨⟨vi, sv⟩, hfl, h⟩ := bind_ok h
    obtain ⟨rk, hrk, h⟩ := bind_ok h
    obtain ⟨xa, hxa, h⟩ := bind_ok h
    obtain ⟨xa2, hx2, h⟩ := bind_ok h
    simp only [pure, Except.pure, Except.ok.injEq, Prod.mk.injEq] at h
    exact h.2 ▸ s1

theorem convert_docutils_store_independent (cleanupSig cet : String → String)
    (name : String) (doc : List DNode) (sig : Option String)
    (symbol : Option SymbolInfo) (metadata : Option (List (String × String)))
    (synonyms : Option (List String)) (dtd : String) (refs : List String)
    (sv₁ sv₂ : Option VersionStore) :
    convert_docutils cleanupSig cet name doc sig symbol metadata synonyms dtd
      ⟨refs, sv₁⟩ =
    convert_docutils cleanupSig cet name doc sig symbol metadata synonyms dtd
      ⟨refs, sv₂⟩ := rfl

/-- A document whose description holds one named reference. -/
def refDoc : List DNode :=
  [.elem "paragraph" {} [.text "Synopsis."],
   .elem "paragraph" {}
     [.elem "reference" { name := some "XLink", refuri := some "http://x" } [.text "X"]]]

/-- A document whose description holds one target naming `xlink`, with no
reference of that name anywhere in it. -/
def tgtDoc : List DNode :=
  [.elem "paragraph" {} [.text "Synopsis."],
   .elem "paragraph" {} [.elem "target" { names := ["xlink"] } []]]

/-- Counterexample to claim C2 as stated: converting `refDoc` records the
reference name `xlink` in the module-level registry; converting `tgtDoc`
afterwards succeeds, although converting `tgtDoc` from a fresh state is
fatal (its target is un-referenced).  The name recorded while converting
the first Document is therefore observable while converting the next —
the reference registry is not reset between conversions. -/
theorem references_leak_across_documents :
    ((convert_docutils id id "foo" refDoc none none none none "ahelp"
        ⟨[], none⟩).map fun p => (p.1.isDocument, p.2.references)) =
      .ok (true, ["xlink"]) ∧
    ((do
        let (_, st₁) ← convert_docutils id id "foo" refDoc none none none none
          "ahelp" ⟨[], none⟩
        convert_docutils id id "foo" tgtDoc none none none none "ahelp" st₁ :
          Except Err (ConvResult × ConvState)).map fun p => p.1.isDocument) =
      .ok true ∧
    convert_docutils id id "foo" tgtDoc none none none none "ahelp" ⟨[], none⟩ =
      .error (.valueError ("Found un-referenced target block " ++ "xlink")) :=
  ⟨rfl, rfl, rfl⟩

/-- Claim C2 as amended: before each conversion `convert_docutils`
freshly resets only the version-history store — the conversion result is
entirely independent of the incoming store, so no version entry leaks
across Documents — while the reference-name registry is never reset: it
can only grow, so names recorded for one Document stay observable in the
next. -/
theorem version_store_reset_registry_persists :
    (∀ (cleanupSig cet : String → String) (name : String) (doc : List DNode)
      (sig : Option String) (symbol : Option SymbolInfo)
      (metadata : Option (List (String × String))) (synonyms : Option (List String))
      (dtd : String) (refs : List String) (sv₁ sv₂ : Option VersionStore),
      convert_docutils cleanupSig cet name doc sig symbol metadata synonyms dtd
        ⟨refs, sv₁⟩ =
      convert_docutils cleanupSig cet name doc sig symbol metadata synonyms dtd
        ⟨refs, sv₂⟩) ∧
    (∀ (cleanupSig cet : String → String) (name : String) (doc : List DNode)
      (sig : Option String) (symbol : Option SymbolInfo)
      (metadata : Option (List (String × String))) (synonyms : Option (List String))
      (dtd : String) (st : ConvState) (res : ConvResult) (st' : ConvState),
      convert_docutils cleanupSig cet name doc sig symbol metadata synonyms dtd
        st = .ok (res, st') →
      st.references ⊆ st'.references) :=
  ⟨fun cleanupSig cet name doc sig symbol metadata synonyms dtd refs sv₁ sv₂ =>
    convert_docutils_store_independent cleanupSig cet name doc sig symbol
      metadata synonyms dtd refs sv₁ sv₂,
   fun _ _ _ _ _ _ _ _ _ _ _ _ h => convert_docutils_refs_mono h⟩

/-- Witness for claim C2 as amended, at the one-rubric document. -/
theorem version_store_reset_registry_persists_witness :
    ConvState.references ⟨[], none⟩ ⊆
      ConvState.references ⟨[], some reset_stored_versions⟩ :=
  version_store_reset_registry_persists.2 id id "foo" [rubricOther] none none
    none none "ahelp" ⟨[], none⟩ (.trailing [rubricOther])
    ⟨[], some reset_stored_versions⟩ rfl

/-! ## The version flush order -/

/-- Recording a sequence of version blocks: exactly what
`make_para_blocks` does for `versionadded`, `versionchanged` and
mistyped `comment` directives, iterated. -/
def record_versions (refs : List String) : List DNode → VersionStore →
    Except Err VersionStore
  | [], sv => .ok sv
  | b :: bs, sv => do
    let sv ←
      if b.tagname = "comment" then convert_comment_versionwarning b (some sv) refs
      else convert_versionwarning b (some sv) refs
    record_versions refs bs sv

/-- Titles the recorder can give an entry of the `versionadded` list:
either none, or an `Added in CIAO ...` title. -/
def addedTitleOk (p : XElem) : Prop :=
  p.get "title" = none ∨ ∃ v, p.get "title" = some ("Added in CIAO " ++ v)

theorem XElem.get_setText (e : XElem) (s k : String) :
    (e.setText s).get k = e.get k := by cases e; rfl

theorem added_prefix_ne_new (v : String) :
    ("Added in CIAO " ++ v) ≠ "New in CIAO 4.14" := by
  obtain ⟨d⟩ := v
  intro hg
  have h : some 'A' = some 'N' := congrArg (fun s => s.data.head?) hg
  simp at h

theorem VersionStore.append_added (sv : VersionStore) (el : XElem) :
    (sv.append "versionadded" el).versionadded = sv.versionadded ++ [el] := by
  unfold VersionStore.append
  simp

theorem VersionStore.append_other (sv : VersionStore) (tag : String) (el : XElem)
    (h : tag ≠ "versionadded") :
    (sv.append tag el).versionadded = sv.versionadded := by
  unfold VersionStore.append
  simp [h]

theorem foldl_append_versionadded (tag : String) (extra : List XElem) :
    ∀ sv : VersionStore,
    (extra.foldl (fun s e => s.append tag e) sv).versionadded =
      if tag = "versionadded" then sv.versionadded ++ extra
      else sv.versionadded := by
  induction extra with
  | nil => intro sv; split <;> simp
  | cons e es ih =>
    intro sv
    rw [List.foldl_cons, ih]
    by_cases htag : tag = "versionadded"
    · subst htag
      simp [VersionStore.append_added]
    · simp [htag, VersionStore.append_other sv tag e htag]

theorem convert_versionwarning_rest_titles {refs : List String}
    {bs : List DNode} {extra : List XElem}
    (h : convert_versionwarning_rest refs bs = .ok extra) :
    ∀ e ∈ extra, e.get "title" = none := by
  induction bs generalizing extra with
  | nil =>
    unfold convert_versionwarning_rest at h
    simp only [Except.ok.injEq] at h
    subst h
    intro e he
    cases he
  | cons b bs ih =>
    unfold convert_versionwarning_rest at h
    split at h
    · exact absurd h (by simp)
    · simp only [Bind.bind] at h
      obtain ⟨t, ht, h⟩ := bind_ok h
      obtain ⟨rest, hrest, h⟩ := bind_ok h
      simp only [pure, Except.pure, Except.ok.injEq] at h
      subst h
      intro e he
      rcases List.mem_cons.mp he with he | he
      · rw [he, XElem.get_setText]; rfl
      · exact ih hrest e he

theorem versionwarning_settext_get (out : XElem) (trest : List String)
    (k : String) : (versionwarning_settext out trest).get k = out.get k := by
  rcases trest with _ | ⟨t1, ts⟩
  · rfl
  · show (if (!xsversionMatch t1) = true then out.setText t1 else out).get k =
      out.get k
    by_cases hx : (!xsversionMatch t1) = true
    · rw [if_pos hx, XElem.get_setText]
    · rw [if_neg hx]

theorem versionwarning_head_get (title : String) (titles : List String) :
    ((versionwarning_head title titles).1).get "title" = none ∨
    ((versionwarning_head title titles).1).get "title" = some title := by
  unfold versionwarning_head
  split
  · exact Or.inl rfl
  · exact Or.inr rfl

theorem convert_versionwarning_added {b : DNode} {sv : VersionStore}
    {refs : List String} {sv' : VersionStore}
    (h : convert_versionwarning b (some sv) refs = .ok sv') :
    ∀ p ∈ sv'.versionadded, p ∈ sv.versionadded ∨ addedTitleOk p := by
  unfold convert_versionwarning at h
  split at h
  · exact absurd h (by simp)
  · rename_i sv1 heq1
    injection heq1 with heq1
    subst heq1
    split at h
    · exact absurd h (by simp)
    · simp only [Bind.bind] at h
      obtain ⟨lbl, hlbl, h⟩ := bind_ok h
      split at h
      · exact absurd h (by simp)
      · rcases hch : b.children with _ | ⟨b0, brest⟩ <;> rw [hch] at h
        · exact absurd h (by simp)
        · obtain ⟨b0txt, htxt, h⟩ := bind_ok h
          rcases htoks : pySplitMax1 b0txt with _ | ⟨t0, trest⟩ <;> rw [htoks] at h
          · exact absurd h (by simp)
          · obtain ⟨version, hver, h⟩ := bind_ok h
            obtain ⟨extra, hextra, h⟩ := bind_ok h
            simp only [pure, Except.pure, Except.ok.injEq] at h
            subst h
            intro p hp
            rw [foldl_append_versionadded] at hp
            have hex := convert_versionwarning_rest_titles hextra
            by_cases htag : b.tagname = "versionadded"
            · rw [if_pos htag] at hp
              rw [htag, VersionStore.append_added] at hp
              rcases List.mem_append.mp hp with hp | hp
              · rcases List.mem_append.mp hp with hp | hp
                · exact Or.inl hp
                · simp only [List.mem_singleton] at hp
                  subst hp
                  right
                  have hlbl' : lbl = "Added" := by
                    rw [htag] at hlbl
                    unfold versionwarning_label at hlbl
                    rw [if_pos rfl] at hlbl
                    exact (Except.ok.inj hlbl).symm
                  subst hlbl'
                  unfold addedTitleOk
                  rw [versionwarning_settext_get]
                  rcases versionwarning_head_get
                      ("Added" ++ " in CIAO " ++ version) sv.titles with hg | hg
                  · exact Or.inl hg
                  · refine Or.inr ⟨version, ?_⟩
                    rw [hg,
                      show ("Added" ++ " in CIAO " : String) = "Added in CIAO " from rfl]
              · exact Or.inr (Or.inl (hex p hp))
            · rw [if_neg htag] at hp
              rw [VersionStore.append_other _ _ _ htag] at hp
              exact Or.inl hp

theorem comment_versionwarning_settext_get (out : XElem) (trest : List String)
    (k : String) :
    (comment_versionwarning_settext out trest).get k = out.get k := by
  rcases trest with _ | ⟨t1, ts⟩
  · rfl
  · show (out.setText t1).get k = out.get k
    rw [XElem.get_setText]

theorem append_added_of_label {sv : VersionStore} {tag lbl version : String}
    {out : XElem} (hlbl : versionwarning_label tag = .ok lbl)
    (hout : out.get "title" = some (lbl ++ " in CIAO " ++ version) ∨
      out.get "title" = none) :
    ∀ p ∈ (sv.append tag out).versionadded,
      p ∈ sv.versionadded ∨ addedTitleOk p := by
  intro p hp
  by_cases htag : tag = "versionadded"
  · rw [htag, VersionStore.append_added] at hp
    rcases List.mem_append.mp hp with hp | hp
    · exact Or.inl hp
    · simp only [List.mem_singleton] at hp
      subst hp
      right
      have hlbl' : lbl = "Added" := by
        rw [htag] at hlbl
        unfold versionwarning_label at hlbl
        rw [if_pos rfl] at hlbl
        exact (Except.ok.inj hlbl).symm
      subst hlbl'
      rcases hout with hout | hout
      · refine Or.inr ⟨version, ?_⟩
        rw [hout,
          show ("Added" ++ " in CIAO " : String) = "Added in CIAO " from rfl]
      · exact Or.inl hout
  · rw [VersionStore.append_other _ _ _ htag] at hp
    exact Or.inl hp

theorem convert_comment_versionwarning_added {b : DNode} {sv : VersionStore}
    {refs : List String} {sv' : VersionStore}
    (h : convert_comment_versionwarning b (some sv) refs = .ok sv') :
    ∀ p ∈ sv'.versionadded, p ∈ sv.versionadded ∨ addedTitleOk p := by
  unfold convert_comment_versionwarning at h
  split at h
  · exact absurd h (by simp)
  · rename_i sv1 heq1
    injection heq1 with heq1
    subst heq1
    split at h
    · exact absurd h (by simp)
    · split at h
      · simp only [Bind.bind] at h
        obtain ⟨astxt, htxt, h⟩ := bind_ok h
        split at h
        · exact absurd h (by simp)
        · split at h
          · exact absurd h (by simp)
          · obtain ⟨lbl, hlbl, h⟩ := bind_ok h
            split at h
            · exact absurd h (by simp)
            · obtain ⟨version, hver, h⟩ := bind_ok h
              simp only [pure, Except.pure, Except.ok.injEq] at h
              subst h
              refine @append_added_of_label sv _ lbl version _ hlbl (Or.inl ?_)
              rw [comment_versionwarning_settext_get]
              rfl
      · exact absurd h (by simp)

theorem VersionStore.append_done (sv : VersionStore) (tag : String)
    (el : XElem) : (sv.append tag el).done = sv.done := by
  unfold VersionStore.append
  split <;> rfl

theorem foldl_append_done (tag : String) (extra : List XElem) :
    ∀ sv : VersionStore,
    (extra.foldl (fun s e => s.append tag e) sv).done = sv.done := by
  induction extra with
  | nil => intro sv; rfl
  | cons e es ih =>
    intro sv
    rw [List.foldl_cons, ih, VersionStore.append_done]

theorem convert_versionwarning_done {b : DNode} {sv : VersionStore}
    {refs : List String} {sv' : VersionStore}
    (h : convert_versionwarning b (some sv) refs = .ok sv') :
    sv'.done = sv.done := by
  unfold convert_versionwarning at h
  split at h
  · exact absurd h (by simp)
  · rename_i sv1 heq1
    injection heq1 with heq1
    subst heq1
    split at h
    · exact absurd h (by simp)
    · simp only [Bind.bind] at h
      obtain ⟨lbl, hlbl, h⟩ := bind_ok h
      split at h
      · exact absurd h (by simp)
      · rcases hch : b.children with _ | ⟨b0, brest⟩ <;> rw [hch] at h
        · exact absurd h (by simp)
        · obtain ⟨b0txt, htxt, h⟩ := bind_ok h
          rcases htoks : pySplitMax1 b0txt with _ | ⟨t0, trest⟩ <;> rw [htoks] at h
          · exact absurd h (by simp)
          · obtain ⟨version, hver, h⟩ := bind_ok h
            obtain ⟨extra, hextra, h⟩ := bind_ok h
            simp only [pure, Except.pure, Except.ok.injEq] at h
            subst h
            rw [foldl_append_done, VersionStore.append_done]

theorem convert_comment_versionwarning_done {b : DNode} {sv : VersionStore}
    {refs : List String} {sv' : VersionStore}
    (h : convert_comment_versionwarning b (some sv) refs = .ok sv') :
    sv'.done = sv.done := by
  unfold convert_comment_versionwarning at h
  split at h
  · exact absurd h (by simp)
  · rename_i sv1 heq1
    injection heq1 with heq1
    subst heq1
    split at h
    · exact absurd h (by simp)
    · split at h
      · simp only [Bind.bind] at h
        obtain ⟨astxt, htxt, h⟩ := bind_ok h
        split at h
        · exact absurd h (by simp)
        · split at h
          · exact absurd h (by simp)
          · obtain ⟨lbl, hlbl, h⟩ := bind_ok h
            split at h
            · exact absurd h (by simp)
            · obtain ⟨version, hver, h⟩ := bind_ok h
              simp only [pure, Except.pure, Except.ok.injEq] at h
              subst h
              rw [VersionStore.append_done]
      · exact absurd h (by simp)

theorem record_versions_done {refs : List String} {blocks : List DNode} :
    ∀ {sv sv' : VersionStore},
    record_versions refs blocks sv = .ok sv' → sv'.done = sv.done := by
  induction blocks with
  | nil =>
    intro sv sv' h
    unfold record_versions at h
    simp only [Except.ok.injEq] at h
    subst h
    rfl
  | cons b bs ih =>
    intro sv sv' h
    unfold record_versions at h
    simp only [Bind.bind] at h
    split at h
    · obtain ⟨sv1, hsv1, hrec⟩ := bind_ok h
      rw [ih hrec]
      exact convert_comment_versionwarning_done hsv1
    · obtain ⟨sv1, hsv1, hrec⟩ := bind_ok h
      rw [ih hrec]
      exact convert_versionwarning_done hsv1

theorem record_versions_added {refs : List String} {blocks : List DNode} :
    ∀ {sv sv' : VersionStore},
    record_versions refs blocks sv = .ok sv' →
    (∀ p ∈ sv.versionadded, addedTitleOk p) →
    ∀ p ∈ sv'.versionadded, addedTitleOk p := by
  induction blocks with
  | nil =>
    intro sv sv' h hinv
    unfold record_versions at h
    simp only [Except.ok.injEq] at h
    subst h
    exact hinv
  | cons b bs ih =>
    intro sv sv' h hinv
    unfold record_versions at h
    simp only [Bind.bind] at h
    split at h
    · obtain ⟨sv1, hsv1, hrec⟩ := bind_ok h
      refine ih hrec ?_
      intro p hp
      rcases convert_comment_versionwarning_added hsv1 p hp with hmem | hok
      · exact hinv p hmem
      · exact hok
    · obtain ⟨sv1, hsv1, hrec⟩ := bind_ok h
      refine ih hrec ?_
      intro p hp
      rcases convert_versionwarning_added hsv1 p hp with hmem | hok
      · exact hinv p hmem
      · exact hok

theorem skippy_added_false {l : List XElem}
    (hinv : ∀ p ∈ l, addedTitleOk p) :
    (l.map fun p => p.get "title" == some "New in CIAO 4.14").any id = false := by
  induction l with
  | nil => rfl
  | cons p ps ih =>
    rw [List.map_cons, List.any_cons,
      ih (fun q hq => hinv q (List.mem_cons_of_mem _ hq)), Bool.or_false]
    show id (p.get "title" == some "New in CIAO 4.14") = false
    rcases hinv p (List.mem_cons_self _ _) with hp | ⟨v, hp⟩
    · rw [hp]
      rfl
    · rw [hp]
      simp only [id, beq_eq_false_iff_ne, ne_eq, Option.some.injEq]
      exact added_prefix_ne_new v

theorem voigtFix_id {name : String}
    (hname : name ∉ (["pseudovoigt1d", "voigt1d"] : List String)) (p : XElem) :
    voigtFix name p = .ok p := by
  unfold voigtFix
  rw [if_neg hname]

theorem voigtFixAll_id {name : String}
    (hname : name ∉ (["pseudovoigt1d", "voigt1d"] : List String)) :
    ∀ l : List XElem, voigtFixAll name l = .ok l := by
  intro l
  induction l with
  | nil => rfl
  | cons p ps ih =>
    unfold voigtFixAll
    rw [voigtFix_id hname]
    dsimp only [Bind.bind, Except.bind]
    rw [ih]
    rfl

theorem XElem.children_pushAll (e : XElem) (xs : List XElem) :
    (e.pushAll xs).children = e.children ++ xs := by
  cases e
  rfl

/-- Claim C5: for every sequence of version blocks recorded into a fresh
store, the consolidated `Changes in CIAO` section emitted at flush lists
all Changed entries first (in recording order) and then all Added entries
(in recording order); away from the two Voigt special-case models the
Added entries are exactly the recorded ones. -/
theorem flush_lists_changed_before_added {refs : List String}
    {blocks : List DNode} {sv : VersionStore} {name : String} {vi : XElem}
    {sv' : VersionStore}
    (hrec : record_versions refs blocks reset_stored_versions = .ok sv)
    (hfl : flush_stored_versions name (some sv) = .ok (some vi, sv')) :
    vi.children = sv.versionchanged ++ sv'.versionadded ∧
    (name ∉ (["pseudovoigt1d", "voigt1d"] : List String) →
      sv'.versionadded = sv.versionadded) := by
  have hdone : sv.done = false := record_versions_done hrec
  have hinv : ∀ p ∈ sv.versionadded, addedTitleOk p :=
    record_versions_added hrec (by intro p hp; cases hp)
  have hsk2 :
      (sv.versionadded.map fun p => p.get "title" == some "New in CIAO 4.14").any
        id = false := skippy_added_false hinv
  unfold flush_stored_versions at hfl
  split at hfl
  · exact absurd hfl (by simp)
  · rename_i sv1 heq1
    injection heq1 with heq1
    subst heq1
    split at hfl
    · rename_i hd
      rw [hdone] at hd
      cases hd
    · simp only [Bind.bind] at hfl
      split at hfl
      · rename_i hc
        rw [hsk2, Bool.and_false] at hc
        cases hc
      · simp only [pure, Except.pure, Except.bind] at hfl
        obtain ⟨fixedAdded, hfix, hfl⟩ := bind_ok hfl
        simp only [Except.ok.injEq, Prod.mk.injEq] at hfl
        obtain ⟨h1, h2⟩ := hfl
        split at h1
        · exact absurd h1 (by simp)
        · injection h1 with h1
          subst h2
          constructor
          · rw [← h1, XElem.children_pushAll]
            show [] ++ (sv.versionchanged ++ fixedAdded) =
              sv.versionchanged ++ fixedAdded
            rw [List.nil_append]
          · intro hname
            rw [voigtFixAll_id hname sv.versionadded] at hfix
            show fixedAdded = sv.versionadded
            exact (Except.ok.inj hfix).symm

/-- A recorded `versionchanged` block for release 4.12.2. -/
def chgOld : DNode :=
  .elem "versionchanged" {} [.elem "paragraph" {} [.text "4.12.2 Some change."]]

/-- A recorded `versionadded` block for release 4.13.0. -/
def addNew : DNode :=
  .elem "versionadded" {} [.elem "paragraph" {} [.text "4.13.0 Some addition."]]

/-- The store after recording `chgOld` then `addNew` from a fresh reset. -/
def svW : VersionStore :=
  { versionadded :=
      [XElem.mk "PARA" [("title", "Added in CIAO 4.13")]
        (some "Some addition.") none []],
    versionchanged :=
      [XElem.mk "PARA" [("title", "Changed in CIAO 4.13")]
        (some "Some change.") none []],
    titles := ["Added in CIAO 4.13", "Changed in CIAO 4.13"],
    done := false }

/-- The consolidated section the flush emits for `svW`. -/
def viW : XElem :=
  XElem.mk "ADESC" [("title", "Changes in CIAO")] none none
    [XElem.mk "PARA" [("title", "Changed in CIAO 4.13")]
      (some "Some change.") none [],
     XElem.mk "PARA" [("title", "Added in CIAO 4.13")]
      (some "Some addition.") none []]

/-- The store after the flush: unchanged lists, marked done. -/
def svW' : VersionStore := { svW with done := true }

theorem flush_lists_changed_before_added_witness :
    viW.children = svW.versionchanged ++ svW'.versionadded ∧
    ("foo" ∉ (["pseudovoigt1d", "voigt1d"] : List String) →
      svW'.versionadded = svW.versionadded) :=
  @flush_lists_changed_before_added [] [chgOld, addNew] svW "foo" viW svW'
    rfl rfl

/-! ## Order theory for the Python string comparison -/

theorem pyLtList_trans : ∀ {as' bs cs : List Char},
    pyLtList as' bs = true → pyLtList bs cs = true → pyLtList as' cs = true := by
  intro as' bs cs
  induction as' generalizing bs cs with
  | nil =>
    intro h1 h2
    rcases bs with _ | ⟨b, bs'⟩
    · exact absurd h1 (by simp [pyLtList])
    · rcases cs with _ | ⟨c, cs'⟩
      · exact absurd h2 (by simp [pyLtList])
      · rfl
  | cons a as ih =>
    intro h1 h2
    rcases bs with _ | ⟨b, bs'⟩
    · exact absurd h1 (by simp [pyLtList])
    · rcases cs with _ | ⟨c, cs'⟩
      · exact absurd h2 (by simp [pyLtList])
      · unfold pyLtList at h1 h2 ⊢
        by_cases hab : a = b
        · subst hab
          rw [if_pos rfl] at h1
          by_cases hbc : a = c
          · subst hbc
            rw [if_pos rfl] at h2 ⊢
            exact ih h1 h2
          · rw [if_neg hbc] at h2 ⊢
            exact h2
        · rw [if_neg hab] at h1
          have hab' : a < b := of_decide_eq_true h1
          by_cases hbc : b = c
          · subst hbc
            rw [if_neg hab]
            exact h1
          · rw [if_neg hbc] at h2
            have hbc' : b < c := of_decide_eq_true h2
            have hac' : a < c := lt_trans hab' hbc'
            rw [if_neg (ne_of_lt hac')]
            exact decide_eq_true hac'

theorem pyLtList_asymm : ∀ {as' bs : List Char},
    pyLtList as' bs = true → pyLtList bs as' = true → False := by
  intro as' bs
  induction as' generalizing bs with
  | nil =>
    intro h1 h2
    rcases bs with _ | ⟨b, bs'⟩
    · exact absurd h1 (by simp [pyLtList])
    · exact absurd h2 (by simp [pyLtList])
  | cons a as ih =>
    intro h1 h2
    rcases bs with _ | ⟨b, bs'⟩
    · exact absurd h1 (by simp [pyLtList])
    · unfold pyLtList at h1 h2
      by_cases hab : a = b
      · subst hab
        rw [if_pos rfl] at h1 h2
        exact ih h1 h2
      · rw [if_neg hab] at h1
        rw [if_neg (Ne.symm hab)] at h2
        exact absurd (of_decide_eq_true h2) (not_lt_of_lt (of_decide_eq_true h1))

theorem pyLtList_total : ∀ (as' bs : List Char),
    as' = bs ∨ pyLtList as' bs = true ∨ pyLtList bs as' = true := by
  intro as'
  induction as' with
  | nil =>
    intro bs
    rcases bs with _ | ⟨b, bs'⟩
    · exact Or.inl rfl
    · exact Or.inr (Or.inl rfl)
  | cons a as ih =>
    intro bs
    rcases bs with _ | ⟨b, bs'⟩
    · exact Or.inr (Or.inr rfl)
    · by_cases hab : a = b
      · subst hab
        rcases ih bs' with heq | h | h
        · exact Or.inl (by rw [heq])
        · refine Or.inr (Or.inl ?_)
          unfold pyLtList
          rw [if_pos rfl]
          exact h
        · refine Or.inr (Or.inr ?_)
          unfold pyLtList
          rw [if_pos rfl]
          exact h
      · rcases lt_or_gt_of_ne hab with hlt | hgt
        · refine Or.inr (Or.inl ?_)
          unfold pyLtList
          rw [if_neg hab]
          exact decide_eq_true hlt
        · refine Or.inr (Or.inr ?_)
          unfold pyLtList
          rw [if_neg (Ne.symm hab)]
          exact decide_eq_true hgt

theorem string_data_inj {a b : String} (h : a.data = b.data) : a = b := by
  cases a
  cases b
  exact congrArg String.mk h

theorem pyLe_total : ∀ a b : String, pyLe a b = true ∨ pyLe b a = true := by
  intro a b
  unfold pyLe pyLt
  rcases pyLtList_total a.data b.data with heq | h | h
  · exact Or.inl (by rw [string_data_inj heq]; simp)
  · exact Or.inl (by rw [h]; simp)
  · exact Or.inr (by rw [h]; simp)

theorem pyLe_trans : ∀ {a b c : String},
    pyLe a b = true → pyLe b c = true → pyLe a c = true := by
  intro a b c h1 h2
  unfold pyLe pyLt at h1 h2 ⊢
  rcases Bool.or_eq_true_iff.mp h1 with h1 | h1
  · rw [of_decide_eq_true h1]
    exact h2
  · rcases Bool.or_eq_true_iff.mp h2 with h2 | h2
    · rw [← of_decide_eq_true h2]
      rw [h1]
      simp
    · rw [pyLtList_trans h1 h2]
      simp

theorem pyLe_antisymm : ∀ {a b : String},
    pyLe a b = true → pyLe b a = true → a = b := by
  intro a b h1 h2
  unfold pyLe pyLt at h1 h2
  rcases Bool.or_eq_true_iff.mp h1 with h1 | h1
  · exact of_decide_eq_true h1
  · rcases Bool.or_eq_true_iff.mp h2 with h2 | h2
    · exact (of_decide_eq_true h2).symm
    · exact absurd (pyLtList_asymm h1 h2) not_false

instance : IsTotal String (fun a b => pyLe a b = true) := ⟨pyLe_total⟩

instance : IsTrans String (fun a b => pyLe a b = true) :=
  ⟨fun _ _ _ => pyLe_trans⟩

instance : IsAntisymm String (fun a b => pyLe a b = true) :=
  ⟨fun _ _ => pyLe_antisymm⟩

theorem pySorted_perm (l : List String) : List.Perm (pySorted l) l :=
  List.perm_insertionSort _ l

theorem pySorted_sorted (l : List String) :
    List.Sorted (fun a b => pyLe a b = true) (pySorted l) :=
  List.sorted_insertionSort _ l

theorem mem_pySortedSet {t : String} {l : List String} :
    t ∈ pySortedSet l ↔ t ∈ l := by
  unfold pySortedSet
  rw [(pySorted_perm l.dedup).mem_iff, List.mem_dedup]

theorem pySortedSet_sorted (l : List String) :
    List.Sorted (fun a b => pyLe a b = true) (pySortedSet l) :=
  pySorted_sorted l.dedup

theorem pySortedSet_nodup (l : List String) : (pySortedSet l).Nodup :=
  ((pySorted_perm l.dedup).nodup_iff).mpr (List.nodup_dedup l)

/-- The union step of `append_values` is commutative. -/
theorem pySortedSet_comm (xs ys : List String) :
    pySortedSet (xs ++ ys) = pySortedSet (ys ++ xs) := by
  refine List.eq_of_perm_of_sorted ?_ (pySortedSet_sorted _) (pySortedSet_sorted _)
  refine ((pySorted_perm _).trans ?_).trans (pySorted_perm _).symm
  refine (List.perm_ext_iff_of_nodup (List.nodup_dedup _) (List.nodup_dedup _)).mpr ?_
  intro a
  simp only [List.mem_dedup, List.mem_append]
  exact Or.comm

/-- Re-unioning elements already present changes nothing. -/
theorem pySortedSet_absorb {zs ws : List String}
    (hsub : ∀ t ∈ ws, t ∈ zs) :
    pySortedSet (pySortedSet zs ++ ws) = pySortedSet zs := by
  refine List.eq_of_perm_of_sorted ?_ (pySortedSet_sorted _) (pySortedSet_sorted _)
  refine ((pySorted_perm _).trans ?_)
  refine (List.perm_ext_iff_of_nodup (List.nodup_dedup _) (pySortedSet_nodup _)).mpr ?_
  intro a
  simp only [List.mem_dedup, List.mem_append, mem_pySortedSet]
  constructor
  · intro h
    rcases h with h | h
    · exact h
    · exact hsub a h
  · intro h
    exact Or.inl h

/-! ## Tokens survive a join/split round trip -/

/-- A well-formed token: nonempty and whitespace-free, as produced by
Python `str.split()`. -/
def goodTok (s : String) : Prop :=
  s.data ≠ [] ∧ ∀ c ∈ s.data, c.isWhitespace = false

/-- Character data of a space-join, past the first token. -/
def joinTailData : List String → List Char
  | [] => []
  | x :: xs => ' ' :: x.data ++ joinTailData xs

/-- Character data of a space-join. -/
def joinData : List String → List Char
  | [] => []
  | a :: as => a.data ++ joinTailData as

theorem sdata_append (a b : String) : (a ++ b).data = a.data ++ b.data := by
  cases a
  cases b
  rfl

theorem intercalate_go_data : ∀ (rest : List String) (acc : String),
    (String.intercalate.go acc " " rest).data = acc.data ++ joinTailData rest := by
  intro rest
  induction rest with
  | nil =>
    intro acc
    show acc.data = acc.data ++ joinTailData []
    rw [show joinTailData [] = [] from rfl, List.append_nil]
  | cons a as ih =>
    intro acc
    show (String.intercalate.go (acc ++ " " ++ a) " " as).data =
      acc.data ++ joinTailData (a :: as)
    rw [ih, sdata_append, sdata_append,
      show (" " : String).data = [' '] from rfl,
      show joinTailData (a :: as) = ' ' :: a.data ++ joinTailData as from rfl]
    simp [List.append_assoc]

theorem pyJoin_data (l : List String) : (pyJoin " " l).data = joinData l := by
  rcases l with _ | ⟨a, as⟩
  · rfl
  · show (String.intercalate.go a " " as).data = a.data ++ joinTailData as
    exact intercalate_go_data as a

theorem pyWordsList_token : ∀ (w : List Char), w ≠ [] →
    (∀ c ∈ w, c.isWhitespace = false) → pyWordsList w = [w] := by
  intro w
  induction w with
  | nil =>
    intro h
    exact absurd rfl h
  | cons c cs ih =>
    intro _ hgood
    have hc : c.isWhitespace = false := hgood c (List.mem_cons_self _ _)
    unfold pyWordsList
    rw [if_neg (by rw [hc]; exact Bool.false_ne_true)]
    rcases cs with _ | ⟨d, ds⟩
    · rfl
    · have hcs : pyWordsList (d :: ds) = [d :: ds] :=
        ih (by simp) (fun x hx => hgood x (List.mem_cons_of_mem _ hx))
      rw [hcs]
      have hd : d.isWhitespace = false :=
        hgood d (List.mem_cons_of_mem _ (List.mem_cons_self _ _))
      show (if d.isWhitespace = true then [c] :: (d :: ds) :: ([] : List (List Char))
        else (c :: d :: ds) :: []) = [c :: d :: ds]
      rw [if_neg (by rw [hd]; exact Bool.false_ne_true)]

theorem pyWordsList_token_sep : ∀ (w : List Char) (rest : List Char), w ≠ [] →
    (∀ c ∈ w, c.isWhitespace = false) →
    pyWordsList (w ++ ' ' :: rest) = w :: pyWordsList rest := by
  intro w
  induction w with
  | nil =>
    intro rest h
    exact absurd rfl h
  | cons c cs ih =>
    intro rest _ hgood
    have hc : c.isWhitespace = false := hgood c (List.mem_cons_self _ _)
    rcases cs with _ | ⟨d, ds⟩
    · show pyWordsList (c :: ' ' :: rest) = [c] :: pyWordsList rest
      rw [pyWordsList]
      rw [if_neg (by rw [hc]; exact Bool.false_ne_true)]
      rw [show pyWordsList (' ' :: rest) = pyWordsList rest from rfl]
      rcases hpw : pyWordsList rest with _ | ⟨w1, ws1⟩
      all_goals rfl
    · show pyWordsList (c :: ((d :: ds) ++ ' ' :: rest)) =
        (c :: d :: ds) :: pyWordsList rest
      have hds : pyWordsList ((d :: ds) ++ ' ' :: rest) =
          (d :: ds) :: pyWordsList rest :=
        ih rest (by simp) (fun x hx => hgood x (List.mem_cons_of_mem _ hx))
      rw [pyWordsList]
      rw [if_neg (by rw [hc]; exact Bool.false_ne_true)]
      rw [hds]
      have hd : d.isWhitespace = false :=
        hgood d (List.mem_cons_of_mem _ (List.mem_cons_self _ _))
      show (if d.isWhitespace = true
          then [c] :: (d :: ds) :: pyWordsList rest
          else (c :: d :: ds) :: pyWordsList rest) =
        (c :: d :: ds) :: pyWordsList rest
      rw [if_neg (by rw [hd]; exact Bool.false_ne_true)]

theorem pyWordsList_joinData : ∀ (l : List String), (∀ t ∈ l, goodTok t) →
    pyWordsList (joinData l) = l.map String.data := by
  intro l
  induction l with
  | nil =>
    intro _
    rfl
  | cons a as ih =>
    intro hgood
    have ha := hgood a (List.mem_cons_self _ _)
    rcases as with _ | ⟨b, bs⟩
    · show pyWordsList (a.data ++ joinTailData []) = [a.data]
      rw [show joinTailData [] = [] from rfl, List.append_nil]
      exact pyWordsList_token a.data ha.1 ha.2
    · show pyWordsList (a.data ++ joinTailData (b :: bs)) =
        a.data :: (b :: bs).map String.data
      rw [show joinTailData (b :: bs) = ' ' :: (b.data ++ joinTailData bs) from rfl]
      rw [pyWordsList_token_sep a.data _ ha.1 ha.2]
      rw [show b.data ++ joinTailData bs = joinData (b :: bs) from rfl]
      rw [ih (fun t ht => hgood t (List.mem_cons_of_mem _ ht))]

theorem map_mk_data : ∀ l : List String,
    (l.map String.data).map (fun d => (⟨d⟩ : String)) = l := by
  intro l
  induction l with
  | nil => rfl
  | cons a as ih =>
    obtain ⟨da⟩ := a
    simp only [List.map_cons, ih]

theorem pyWords_join (l : List String) (h : ∀ t ∈ l, goodTok t) :
    pyWords (pyJoin " " l) = l := by
  unfold pyWords
  rw [pyJoin_data, pyWordsList_joinData l h, map_mk_data]

theorem pyWordsList_good : ∀ cs : List Char, ∀ w ∈ pyWordsList cs,
    w ≠ [] ∧ ∀ c ∈ w, c.isWhitespace = false := by
  intro cs
  induction cs with
  | nil =>
    intro w hw
    cases hw
  | cons c cs ih =>
    intro w hw
    unfold pyWordsList at hw
    by_cases hc : c.isWhitespace = true
    · rw [if_pos hc] at hw
      exact ih w hw
    · rw [if_neg hc] at hw
      have hc' : c.isWhitespace = false := Bool.eq_false_iff.mpr hc
      rcases hpw : pyWordsList cs with _ | ⟨w1, ws1⟩ <;> rw [hpw] at hw
      · simp only [List.mem_singleton] at hw
        subst hw
        refine ⟨by simp, ?_⟩
        intro x hx
        simp only [List.mem_singleton] at hx
        subst hx
        exact hc'
      · rcases cs with _ | ⟨d, ds⟩
        · simp only [List.mem_singleton] at hw
          subst hw
          refine ⟨by simp, ?_⟩
          intro x hx
          simp only [List.mem_singleton] at hx
          subst hx
          exact hc'
        · have hw' : w ∈ (if d.isWhitespace = true then [c] :: w1 :: ws1
              else (c :: w1) :: ws1) := hw
          by_cases hd : d.isWhitespace = true
          · rw [if_pos hd] at hw'
            rcases List.mem_cons.mp hw' with hw2 | hw2
            · subst hw2
              refine ⟨by simp, ?_⟩
              intro x hx
              simp only [List.mem_singleton] at hx
              subst hx
              exact hc'
            · exact ih w (hpw ▸ hw2)
          · rw [if_neg hd] at hw'
            rcases List.mem_cons.mp hw' with hw2 | hw2
            · subst hw2
              have h1 := ih w1 (hpw ▸ List.mem_cons_self _ _)
              refine ⟨by simp, ?_⟩
              intro x hx
              rcases List.mem_cons.mp hx with hx | hx
              · subst hx
                exact hc'
              · exact h1.2 x hx
            · exact ih w (hpw ▸ List.mem_cons_of_mem _ hw2)

theorem pyWords_good (s : String) : ∀ t ∈ pyWords s, goodTok t := by
  intro t ht
  unfold pyWords at ht
  rcases List.mem_map.mp ht with ⟨w, hw, rfl⟩
  exact pyWordsList_good s.data w hw

/-- Re-unioning the same value into an already-unioned value is a no-op. -/
theorem join_union_absorb (cur v : String) :
    pyJoin " " (pySortedSet
      (pyWords (pyJoin " " (pySortedSet (pyWords cur ++ pyWords v))) ++
        pyWords v)) =
    pyJoin " " (pySortedSet (pyWords cur ++ pyWords v)) := by
  have hgood : ∀ t ∈ pySortedSet (pyWords cur ++ pyWords v), goodTok t := by
    intro t ht
    rcases List.mem_append.mp (mem_pySortedSet.mp ht) with h | h
    · exact pyWords_good cur t h
    · exact pyWords_good v t h
  rw [pyWords_join _ hgood]
  rw [pySortedSet_absorb (fun t ht => List.mem_append.mpr (Or.inr ht))]

/-! ## Dictionary lemmas for the metadata merge -/

theorem metaSet_keys (m : Metadata) (k : String) (v : Option String) :
    (metaSet m k v).map Prod.fst = m.map Prod.fst := by
  unfold metaSet
  rw [List.map_map]
  apply List.map_congr_left
  intro p _
  by_cases hp : p.1 = k
  · simp [Function.comp, hp]
  · simp [Function.comp, hp]

theorem metaFind_metaSet_self {m : Metadata} {k : String} (v : Option String)
    (h : metaFind m k ≠ none) : metaFind (metaSet m k v) k = some v := by
  induction m with
  | nil => exact absurd rfl h
  | cons p ps ih =>
    show metaFind ((if p.1 = k then (k, v) else p) :: metaSet ps k v) k = some v
    by_cases hp : p.1 = k
    · rw [if_pos hp]
      unfold metaFind
      have hhd : List.find? (fun q => decide (q.1 = k)) ((k, v) :: metaSet ps k v) =
          some (k, v) :=
        List.find?_cons_of_pos _ (by simp)
      rw [hhd]
      rfl
    · rw [if_neg hp]
      unfold metaFind
      rw [List.find?_cons_of_neg _ (by simpa using hp)]
      apply ih
      intro hnone
      apply h
      unfold metaFind at hnone ⊢
      rw [List.find?_cons_of_neg _ (by simpa using hp)]
      exact hnone

theorem metaFind_metaSet_other {m : Metadata} {k k' : String} (v : Option String)
    (hne : k ≠ k') : metaFind (metaSet m k' v) k = metaFind m k := by
  induction m with
  | nil => rfl
  | cons p ps ih =>
    show metaFind ((if p.1 = k' then (k', v) else p) :: metaSet ps k' v) k =
      metaFind (p :: ps) k
    by_cases hp : p.1 = k'
    · rw [if_pos hp]
      unfold metaFind
      rw [List.find?_cons_of_neg _ (by simpa using Ne.symm hne),
        List.find?_cons_of_neg _ (by simpa [hp] using Ne.symm hne)]
      exact ih
    · rw [if_neg hp]
      unfold metaFind
      by_cases hpk : p.1 = k
      · rw [List.find?_cons_of_pos _ (by simpa using hpk),
          List.find?_cons_of_pos _ (by simpa using hpk)]
      · rw [List.find?_cons_of_neg _ (by simpa using hpk),
          List.find?_cons_of_neg _ (by simpa using hpk)]
        exact ih

theorem metaSet_not_mem {m : Metadata} {k : String} (v : Option String)
    (h : k ∉ m.map Prod.fst) : metaSet m k v = m := by
  induction m with
  | nil => rfl
  | cons p ps ih =>
    have hp : p.1 ≠ k := by
      intro he
      exact h (by rw [List.map_cons, ← he]; exact List.mem_cons_self _ _)
    show (if p.1 = k then (k, v) else p) :: metaSet ps k v = p :: ps
    rw [if_neg hp, ih (fun hk => h (by rw [List.map_cons]; exact List.mem_cons_of_mem _ hk))]

theorem metaSet_eq_self {m : Metadata} {k : String} {v : Option String}
    (hnd : (m.map Prod.fst).Nodup) (h : metaFind m k = some v) :
    metaSet m k v = m := by
  induction m with
  | nil => cases h
  | cons p ps ih =>
    rw [List.map_cons, List.nodup_cons] at hnd
    show (if p.1 = k then (k, v) else p) :: metaSet ps k v = p :: ps
    by_cases hp : p.1 = k
    · have hv : v = p.2 := by
        unfold metaFind at h
        rw [List.find?_cons_of_pos _ (by simpa using hp)] at h
        simp only [Option.map_some'] at h
        exact (Option.some.inj h).symm
      rw [if_pos hp]
      have hkp : (k, v) = p := by
        rw [hv, ← hp]
      rw [hkp, metaSet_not_mem _ (by rw [← hp]; exact hnd.1)]
    · rw [if_neg hp]
      have htail : metaFind ps k = some v := by
        unfold metaFind at h
        rw [List.find?_cons_of_neg _ (by simpa using hp)] at h
        exact h
      rw [ih hnd.2 htail]

theorem merge_fold_keys : ∀ {a : List (String × String)} {m m' : Metadata},
    merge_metadata_fold m a = .ok m' → m'.map Prod.fst = m.map Prod.fst := by
  intro a
  induction a with
  | nil =>
    intro m m' h
    unfold merge_metadata_fold at h
    simp only [Except.ok.injEq] at h
    subst h
    rfl
  | cons p rest ih =>
    obtain ⟨k, v⟩ := p
    intro m m' h
    unfold merge_metadata_fold at h
    split at h
    · exact absurd h (by simp)
    · split at h
      · simp only [Bind.bind] at h
        obtain ⟨nv, hnv, hrest⟩ := bind_ok h
        rw [ih hrest, metaSet_keys]
      · rw [ih h, metaSet_keys]

theorem merge_fold_find_other :
    ∀ {rest : List (String × String)} {acc m' : Metadata} {k : String},
    merge_metadata_fold acc rest = .ok m' → k ∉ rest.map Prod.fst →
    metaFind m' k = metaFind acc k := by
  intro rest
  induction rest with
  | nil =>
    intro acc m' k h _
    unfold merge_metadata_fold at h
    simp only [Except.ok.injEq] at h
    subst h
    rfl
  | cons p rest ih =>
    obtain ⟨k', v⟩ := p
    intro acc m' k h hk
    rw [List.map_cons] at hk
    have hkk' : k ≠ k' := fun he => hk (by rw [he]; exact List.mem_cons_self _ _)
    have hkr : k ∉ rest.map Prod.fst := fun hm => hk (List.mem_cons_of_mem _ hm)
    unfold merge_metadata_fold at h
    split at h
    · exact absurd h (by simp)
    · split at h
      · simp only [Bind.bind] at h
        obtain ⟨nv, hnv, hrest⟩ := bind_ok h
        rw [ih hrest hkr, metaFind_metaSet_other _ hkk']
      · rw [ih h hkr, metaFind_metaSet_other _ hkk']

theorem merge_metadata_fold_idem : ∀ {a : List (String × String)} {m m' : Metadata},
    (m.map Prod.fst).Nodup → (a.map Prod.fst).Nodup →
    merge_metadata_fold m a = .ok m' → merge_metadata_fold m' a = .ok m' := by
  intro a
  induction a with
  | nil =>
    intro m m' _ _ h
    unfold merge_metadata_fold at h ⊢
    simp only [Except.ok.injEq] at h
    subst h
    rfl
  | cons p rest ih =>
    obtain ⟨k, v⟩ := p
    intro m m' hm ha h
    rw [List.map_cons, List.nodup_cons] at ha
    unfold merge_metadata_fold at h
    split at h
    · exact absurd h (by simp)
    · rename_i hkm
      split at h
      · rename_i hmulti
        simp only [Bind.bind] at h
        obtain ⟨nv, hnv, hrest⟩ := bind_ok h
        unfold append_values at hnv
        rcases hcur : metaFind m k with _ | ⟨_ | cur⟩ <;> rw [hcur] at hnv
        · exact absurd hnv (by simp)
        · exact absurd hnv (by simp)
        · simp only [Except.ok.injEq] at hnv
          have hm1 : ((metaSet m k (some nv)).map Prod.fst).Nodup := by
            rw [metaSet_keys]
            exact hm
          have hm2 : (m'.map Prod.fst).Nodup := by
            rw [merge_fold_keys hrest, metaSet_keys]
            exact hm
          have hfind : metaFind m' k = some (some nv) := by
            rw [merge_fold_find_other hrest ha.1,
              metaFind_metaSet_self _ (by rw [hcur]; simp)]
          unfold merge_metadata_fold
          rw [if_neg (by rw [hfind]; simp)]
          rw [if_pos hmulti]
          have hnv2 : append_values m' k v = .ok nv := by
            unfold append_values
            rw [hfind, ← hnv]
            exact congrArg Except.ok (join_union_absorb cur v)
          simp only [Bind.bind]
          rw [hnv2]
          show merge_metadata_fold (metaSet m' k (some nv)) rest = .ok m'
          rw [metaSet_eq_self hm2 hfind]
          exact ih hm1 ha.2 hrest
      · rename_i hmulti
        have hm1 : ((metaSet m k (some v)).map Prod.fst).Nodup := by
          rw [metaSet_keys]
          exact hm
        have hm2 : (m'.map Prod.fst).Nodup := by
          rw [merge_fold_keys h, metaSet_keys]
          exact hm
        have hfind : metaFind m' k = some (some v) := by
          rw [merge_fold_find_other h ha.1,
            metaFind_metaSet_self _ (fun hnone => hkm (by rw [hnone]; rfl))]
        unfold merge_metadata_fold
        rw [if_neg (by rw [hfind]; simp)]
        rw [if_neg hmulti]
        rw [metaSet_eq_self hm2 hfind]
        exact ih hm1 ha.2 h

/-- Claim C6: merging the same override mapping a second time is a no-op
(`merge(merge(m, a), a) = merge(m, a)`), and the set-union step of the
multi-value merge is commutative. -/
theorem merge_metadata_idempotent_comm {m m' : Metadata}
    {a : List (String × String)} (xs ys : List String)
    (hm : (m.map Prod.fst).Nodup) (ha : (a.map Prod.fst).Nodup)
    (h : merge_metadata m (some a) = .ok m') :
    merge_metadata m' (some a) = .ok m' ∧
    pySortedSet (xs ++ ys) = pySortedSet (ys ++ xs) :=
  ⟨merge_metadata_fold_idem hm ha h, pySortedSet_comm xs ys⟩

/-- A docstring-derived metadata mapping. -/
def mW : Metadata :=
  [("key", some "alpha"), ("refkeywords", some "beta alpha"), ("context", none)]

/-- An override mapping touching a multi-value and a plain key. -/
def aW : List (String × String) := [("refkeywords", "gamma beta"), ("key", "newval")]

/-- The merge of `mW` with `aW`. -/
def mW' : Metadata :=
  [("key", some "newval"), ("refkeywords", some "alpha beta gamma"),
   ("context", none)]

theorem merge_metadata_idempotent_comm_witness :
    merge_metadata mW' (some aW) = .ok mW' ∧
    pySortedSet (["b"] ++ ["a"]) = pySortedSet (["a"] ++ ["b"]) :=
  @merge_metadata_idempotent_comm mW mW' aW ["b"] ["a"] (by decide) (by decide)
    rfl

end Doc2Ahelp
